import Mathlib

/-!
Verification development for the CFGParser repository: a shallow embedding of
the character-driven configuration-file parser (`CFGParser::load`), the
serializer (`CFGParser::save`) and the value-resolution accessors
(`getString`, `getValueFromInheritance`, `getArray`, `getVec2/3/4`, `set`,
`hasKey`), together with theorems settling the specification claims.

Strings of the C++ code are modelled as lists of characters (`Str`), and the
two `std::unordered_map`s (`_section_data` and each section's `values`) are
modelled as association lists in insertion order; `find` is first-match
lookup, `try_emplace` appends when the key is absent, and `operator[]=`
replaces the first match or appends.
-/

namespace CFGParser

/-- Strings, modelled as lists of characters. -/
abbrev Str := List Char

/-- Converts a Lean string literal to the `Str` model. -/
def str (s : String) : Str := s.data

/-- Association-list lookup: first entry with the given key (models
`unordered_map::find`). -/
def lookupS {α : Type} : List (Str × α) → Str → Option α
  | [], _ => none
  | (k, v) :: rest, key => if k = key then some v else lookupS rest key

/-- Association-list insert-or-replace (models `unordered_map::operator[] =`):
replaces the first entry with the key, or appends a new entry. -/
def insertS {α : Type} : List (Str × α) → Str → α → List (Str × α)
  | [], key, val => [(key, val)]
  | (k, v) :: rest, key, val =>
    if k = key then (k, val) :: rest else (k, v) :: insertS rest key val

/-- Association-list in-place update of the first entry with the key
(models mutation through a pointer/iterator into the map). -/
def updateS {α : Type} : List (Str × α) → Str → (α → α) → List (Str × α)
  | [], _, _ => []
  | (k, v) :: rest, key, f =>
    if k = key then (k, f v) :: rest else (k, v) :: updateS rest key f

/-- One `[name]` block: `CFGParser::Section`. -/
structure Section where
  inheritances : List Str
  attributes : List Str
  values : List (Str × Str)
deriving DecidableEq, Repr

/-- The parse result: `CFGParser::_section_data` (`SectionDataHash`). -/
abbrev Doc := List (Str × Section)

/-- The parser states: the `ParseAction` enum inside `CFGParser::load`. -/
inductive ParseAction where
  | NEW_LINE
  | SECTION
  | INHERITANCE
  | ATTRIBUTE
  | KEY
  | VALUE
  | VALUE_ARRAY
  | STRING_VALUE
  | COMMENT
  | MULTILINE_COMMENT
  | PREPROCESSOR
  | INCLUDE
  | ERROR
deriving DecidableEq, Repr

/-- The mutable state of one `CFGParser::load` invocation: the shared document
and message sink plus the invocation-local token buffers, counters and flags.
`ctx` models the `section_ptr` local as the name of the section it points to
(sections are never removed, so the pointer is determined by the name). -/
structure LState where
  doc : Doc
  msgs : List Str
  basePath : Str
  sectionBuf : Str
  inheritBuf : Str
  attrBuf : Str
  keyBuf : Str
  valueBuf : Str
  prep1 : Str
  prep2 : Str
  ctx : Option Str
  action : ParseAction
  line : Nat
  charPos : Nat
  ignoreSpaces : Bool
deriving DecidableEq, Repr

/-- The `GetErrorLineString` lambda: position text prepended to in-parse
diagnostics. -/
def errPos (s : LState) : Str :=
  str "Error at line \x27" ++ (Nat.repr s.line).data ++
    str "\x27, character at \x27" ++ (Nat.repr s.charPos).data ++ str "\x27 : "

/-- The `msg` lambda: appends a position-prefixed diagnostic to the sink. -/
def withMsg (s : LState) (m : Str) : LState :=
  { s with msgs := s.msgs ++ [errPos s ++ m] }

/-- The `PushInheritance` lambda: flush the pending inheritance name into the
current section, only when the referenced section already exists; on a missing
target the reference is dropped with a diagnostic.  With a null section
context nothing happens and the buffer is NOT cleared. -/
def pushInheritance (s : LState) : LState :=
  if s.inheritBuf ≠ [] then
    match s.ctx with
    | some n =>
      if (lookupS s.doc s.inheritBuf).isSome then
        { s with
            doc := updateS s.doc n (fun sec =>
              { sec with inheritances := sec.inheritances ++ [s.inheritBuf] }),
            inheritBuf := [] }
      else
        { withMsg s (str "Inherited section \"" ++ s.inheritBuf ++ str "\" is not exist!") with
            inheritBuf := [] }
    | none => s
  else s

/-- The `PushAttribute` lambda: flush the pending attribute into the current
section.  With a null section context nothing happens and the buffer is NOT
cleared. -/
def pushAttribute (s : LState) : LState :=
  if s.attrBuf ≠ [] then
    match s.ctx with
    | some n =>
      { s with
          doc := updateS s.doc n (fun sec =>
            { sec with attributes := sec.attributes ++ [s.attrBuf] }),
          attrBuf := [] }
    | none => s
  else s

/-- The `case comment_character (';')` branch of the switch. -/
def semicolonCore (s : LState) : LState :=
  match s.action with
  | .STRING_VALUE => { s with valueBuf := s.valueBuf ++ [';'] }
  | _ => { s with action := .COMMENT }

/-- The `case comment_multiline ('|')` branch of the switch. -/
def pipeCore (s : LState) : LState :=
  match s.action with
  | .STRING_VALUE => { s with valueBuf := s.valueBuf ++ ['|'] }
  | .MULTILINE_COMMENT => { s with action := .NEW_LINE }
  | _ => { s with action := .MULTILINE_COMMENT }

/-- The `case ' '` / `case '\t'` branch of the switch. -/
def spaceCore (c : Char) (s : LState) : LState :=
  match s.action with
  | .STRING_VALUE => { s with valueBuf := s.valueBuf ++ [c] }
  | .PREPROCESSOR =>
    let s1 := if s.prep1 = str "include" then { s with action := .INCLUDE } else s
    { s1 with prep1 := [] }
  | .ATTRIBUTE | .INHERITANCE | .KEY | .SECTION | .VALUE =>
    if !s.ignoreSpaces then
      { withMsg s (str "Space in wrong place") with action := .ERROR }
    else s
  | _ => s

/-- The `case '\\'` branch for the non-string states (the `STRING_VALUE`
sub-case consumes a lookahead character and is implemented by `escCore`,
invoked from `runChars`). -/
def backslashCore (s : LState) : LState :=
  match s.action with
  | .COMMENT | .MULTILINE_COMMENT => s
  | .STRING_VALUE => s
  | _ => { withMsg s (str "Unexpected escape-symbol") with action := .ERROR }

/-- The inner `switch (file.get())` of the `case '\\'` branch while in
`STRING_VALUE`: decode one escape sequence; `none` models `get()` hitting
end of file. -/
def escCore (oc : Option Char) (s : LState) : LState :=
  match oc with
  | some c =>
    if c = '\\' then { s with valueBuf := s.valueBuf ++ ['\\'] }
    else if c = 'n' then { s with valueBuf := s.valueBuf ++ ['\n'] }
    else if c = '\"' then { s with valueBuf := s.valueBuf ++ ['\"'] }
    else if c = Char.ofNat 39 then { s with valueBuf := s.valueBuf ++ [Char.ofNat 39] }
    else withMsg s (str "Unknown escape-sequence symbol")
  | none => withMsg s (str "Unknown escape-sequence symbol")

/-- The `case '\"'` branch of the switch. -/
def quoteCore (s : LState) : LState :=
  match s.action with
  | .STRING_VALUE => { s with action := .VALUE }
  | .VALUE => { s with action := .STRING_VALUE }
  | _ => s

/-- The `case '#'` branch of the switch. -/
def hashCore (s : LState) : LState :=
  match s.action with
  | .COMMENT | .MULTILINE_COMMENT => s
  | .NEW_LINE => { s with action := .PREPROCESSOR }
  | .STRING_VALUE => { s with valueBuf := s.valueBuf ++ ['#'] }
  | _ => { withMsg s (str "Preprocessor parse error") with action := .ERROR }

/-- The `case '\n'` branch of the switch, including the post-switch reset of
the state, character counter and leading-space flag. -/
def newlineCore (s : LState) : LState :=
  let s1 :=
    match s.action with
    | .COMMENT | .MULTILINE_COMMENT => s
    | .INHERITANCE => pushInheritance s
    | .PREPROCESSOR | .INCLUDE => s
    | .ATTRIBUTE => pushAttribute s
    | .VALUE | .VALUE_ARRAY =>
      let s2 :=
        match s.ctx with
        | some n =>
          { s with
              doc := updateS s.doc n (fun sec =>
                { sec with values := insertS sec.values s.keyBuf s.valueBuf }) }
        | none => s
      { s2 with keyBuf := [], valueBuf := [] }
    | .STRING_VALUE | .NEW_LINE => s
    | .SECTION => { s with action := .NEW_LINE }
    | _ => { withMsg s (str "New line parse error") with action := .ERROR }
  let s3 :=
    if s1.action ≠ .STRING_VALUE ∧ s1.action ≠ .MULTILINE_COMMENT then
      { s1 with action := .NEW_LINE, charPos := 0 }
    else s1
  { s3 with line := s3.line + 1, ignoreSpaces := true }

/-- The `case '<'` branch of the switch. -/
def ltCore (s : LState) : LState :=
  match s.action with
  | .STRING_VALUE => { s with valueBuf := s.valueBuf ++ ['<'] }
  | _ => s

/-- The `case '>'` branch for the non-include states (the `INCLUDE` sub-case
performs the recursive file include and is implemented in `runChars`). -/
def gtCore (s : LState) : LState :=
  match s.action with
  | .STRING_VALUE => { s with valueBuf := s.valueBuf ++ ['>'] }
  | _ => s

/-- The `case '['` branch of the switch. -/
def lbrackCore (s : LState) : LState :=
  match s.action with
  | .COMMENT | .MULTILINE_COMMENT => s
  | .NEW_LINE =>
    { s with ignoreSpaces := false, action := .SECTION, sectionBuf := [], ctx := none }
  | .STRING_VALUE => { s with valueBuf := s.valueBuf ++ ['['] }
  | _ => { withMsg s (str "Section naming parse error") with action := .ERROR }

/-- The `case ']'` branch of the switch: `try_emplace` the section; on a
duplicate name only a diagnostic is emitted (`section_ptr` is left as it was,
which is null in the reachable flow because `'['` cleared it). -/
def rbrackCore (s : LState) : LState :=
  match s.action with
  | .COMMENT | .MULTILINE_COMMENT => s
  | .SECTION =>
    if (lookupS s.doc s.sectionBuf).isSome then
      { withMsg s (str "Section \"" ++ s.sectionBuf ++ str "\" already exist.") with
          ignoreSpaces := true }
    else
      { s with
          doc := s.doc ++ [(s.sectionBuf, Section.mk [] [] [])],
          ctx := some s.sectionBuf,
          ignoreSpaces := true }
  | .STRING_VALUE => { s with valueBuf := s.valueBuf ++ [']'] }
  | _ => { withMsg s (str "Section naming parse error") with action := .ERROR }

/-- The `case ','` branch of the switch. -/
def commaCore (s : LState) : LState :=
  match s.action with
  | .COMMENT | .MULTILINE_COMMENT => s
  | .INHERITANCE => pushInheritance s
  | .ATTRIBUTE => pushAttribute s
  | .STRING_VALUE | .VALUE_ARRAY => { s with valueBuf := s.valueBuf ++ [','] }
  | .VALUE => { s with action := .VALUE_ARRAY, valueBuf := s.valueBuf ++ [','] }
  | _ => { withMsg s (str "Enumeration error") with action := .ERROR }

/-- The `case ':'` branch of the switch. -/
def colonCore (s : LState) : LState :=
  match s.action with
  | .COMMENT | .MULTILINE_COMMENT => s
  | .SECTION => { s with action := .INHERITANCE }
  | .STRING_VALUE => { s with valueBuf := s.valueBuf ++ [':'] }
  | _ => { withMsg s (str "Inheritance error") with action := .ERROR }

/-- The `case '='` branch of the switch: in the `KEY` state the key is
registered in the section's value map with an empty placeholder
(`try_emplace`), with a diagnostic when it already exists. -/
def eqCore (s : LState) : LState :=
  match s.action with
  | .COMMENT | .MULTILINE_COMMENT => s
  | .SECTION => { s with action := .ATTRIBUTE }
  | .INHERITANCE => { pushInheritance s with action := .ATTRIBUTE }
  | .KEY =>
    let s1 :=
      match s.ctx with
      | some n =>
        match lookupS s.doc n with
        | some sec =>
          if (lookupS sec.values s.keyBuf).isSome then
            withMsg s (str "Section \"" ++ s.sectionBuf ++ str "\" key \"" ++
              s.keyBuf ++ str "\" already exist.")
          else
            { s with
                doc := updateS s.doc n (fun sc =>
                  { sc with values := sc.values ++ [(s.keyBuf, [])] }) }
        | none => s
      | none => s
    { s1 with action := .VALUE }
  | .STRING_VALUE => { s with valueBuf := s.valueBuf ++ ['='] }
  | _ => { withMsg s (str "Set value error") with action := .ERROR }

/-- The `default` branch of the switch: accumulate the character into the
buffer of the current state. -/
def defaultCore (c : Char) (s : LState) : LState :=
  match s.action with
  | .COMMENT | .MULTILINE_COMMENT => s
  | .NEW_LINE => { s with action := .KEY, keyBuf := s.keyBuf ++ [c] }
  | .PREPROCESSOR => { s with prep1 := s.prep1 ++ [c] }
  | .INCLUDE => { s with prep2 := s.prep2 ++ [c] }
  | .SECTION => { s with sectionBuf := s.sectionBuf ++ [c] }
  | .INHERITANCE => { s with inheritBuf := s.inheritBuf ++ [c] }
  | .ATTRIBUTE => { s with attrBuf := s.attrBuf ++ [c] }
  | .KEY => { s with keyBuf := s.keyBuf ++ [c] }
  | .VALUE | .VALUE_ARRAY => { s with valueBuf := s.valueBuf ++ [c] }
  | .STRING_VALUE => { s with valueBuf := s.valueBuf ++ [c] }
  | .ERROR => { withMsg s (str "Invalid character error") with action := .ERROR }

/-- The whole `switch (character)` statement. -/
def core (c : Char) (s : LState) : LState :=
  if c = ';' then semicolonCore s
  else if c = '|' then pipeCore s
  else if c = ' ' then spaceCore c s
  else if c = '\t' then spaceCore c s
  else if c = '\\' then backslashCore s
  else if c = '\"' then quoteCore s
  else if c = '#' then hashCore s
  else if c = '\n' then newlineCore s
  else if c = '<' then ltCore s
  else if c = '>' then gtCore s
  else if c = '[' then lbrackCore s
  else if c = ']' then rbrackCore s
  else if c = ',' then commaCore s
  else if c = ':' then colonCore s
  else if c = '=' then eqCore s
  else defaultCore c s

/-- The `++character_pos` at the bottom of the read loop. -/
def bump (s : LState) : LState := { s with charPos := s.charPos + 1 }

/-- One iteration of the read loop for a character which is neither the
escape lookahead case nor the include trigger. -/
def step (c : Char) (s : LState) : LState := bump (core c s)

/-- The include side effect as seen from the read loop: given the base path
and the accumulated argument, produce the updated document and message list
(the type of the recursive `load` call made by `IncludeFile`). -/
abbrev IncT := Str → Str → Doc → List Str → Doc × List Str

/-- The read loop of `CFGParser::load`, parameterized by the include effect:
consumes characters one at a time; a `'\\'` while in `STRING_VALUE` consumes
one character of lookahead (end of input stops the loop there, as the failed
`get()` sets the stream's eof bit); a `'>'` while in `INCLUDE` performs the
include and clears the accumulated argument. -/
def runChars (inc : IncT) : List Char → LState → LState
  | [], s => s
  | c :: cs, s =>
    if c = '\\' ∧ s.action = .STRING_VALUE then
      match cs with
      | [] => bump (escCore none s)
      | c2 :: cs2 => runChars inc cs2 (bump (escCore (some c2) s))
    else if c = '>' ∧ s.action = .INCLUDE then
      let r := inc s.basePath s.prep2 s.doc s.msgs
      runChars inc cs (bump { s with doc := r.1, msgs := r.2, prep2 := [] })
    else
      runChars inc cs (step c s)

/-- The environment standing in for the file system: maps a path to the file
content when the file can be opened. -/
abbrev Env := Str → Option Str

/-- The local-state initialization at the top of `CFGParser::load`. -/
def initState (doc : Doc) (msgs : List Str) (basePath : Str) : LState :=
  { doc := doc, msgs := msgs, basePath := basePath,
    sectionBuf := [], inheritBuf := [], attrBuf := [], keyBuf := [], valueBuf := [],
    prep1 := [], prep2 := [], ctx := none, action := .NEW_LINE,
    line := 1, charPos := 0, ignoreSpaces := true }

/-- The diagnostic emitted when a file cannot be opened (no position text:
it is raised before the read loop starts). -/
def cannotOpenMsg (path : Str) : Str :=
  str "Cannot open file \"" ++ path ++ str "\"."

/-- The body of `CFGParser::load` for a resolved path, parameterized by the
include effect used for nested `#include` directives: on open failure emit one
diagnostic and return; otherwise run the read loop over the content followed
by the end-of-input character, which the loop reads as a newline. -/
def loadWith (inc : IncT) (env : Env) (path : Str) (doc : Doc) (msgs : List Str)
    (basePath : Str) : Doc × List Str :=
  match env path with
  | none => (doc, msgs ++ [cannotOpenMsg path])
  | some content =>
    let s := runChars inc (content ++ ['\n']) (initState doc msgs basePath)
    (s.doc, s.msgs)

/-- The `IncludeFile` lambda at nesting depth `fuel`: resolves the argument
against the base path and recursively loads it into the same document.  The
fuel bounds the include nesting depth of the model; at depth `0` the include
is not modelled (returns the state unchanged). -/
def includeFn (env : Env) : Nat → IncT
  | 0 => fun _ _ doc msgs => (doc, msgs)
  | fuel + 1 => fun basePath arg doc msgs =>
    loadWith (includeFn env fuel) env (basePath ++ arg) doc msgs basePath

/-- The read loop with includes resolved against `env` to depth `fuel`. -/
def run (env : Env) (fuel : Nat) : List Char → LState → LState :=
  runChars (includeFn env fuel)

/-- `CFGParser::load` itself, with include nesting depth at most `fuel`. -/
def load (env : Env) (fuel : Nat) (path : Str) (doc : Doc) (msgs : List Str)
    (basePath : Str) : Doc × List Str :=
  loadWith (includeFn env fuel) env path doc msgs basePath

/-- The file-system environment with no files (used for parses whose input
contains no include directive). -/
def noEnv : Env := fun _ => none

/-- Parse a given text into a fresh document (a `load` whose file content is
the text, with no resolvable includes). -/
def parseDoc (input : Str) : Doc :=
  (runChars (includeFn noEnv 0) (input ++ ['\n']) (initState [] [] [])).doc

/-- `CFGParser::hasSection`. -/
def hasSection (doc : Doc) (sct : Str) : Bool :=
  (lookupS doc sct).isSome

/-- `CFGParser::hasKey` (the missing-section diagnostic is not modelled; only
the returned Boolean is). -/
def hasKey (doc : Doc) (sct key : Str) : Bool :=
  match lookupS doc sct with
  | some sec => (lookupS sec.values key).isSome
  | none => false

/-- The loop of `CFGParser::getValueFromInheritance` over the inheritance
list: the value of the key from the first base section that exists and
defines it, else the empty dummy string. -/
def getValueFromInheritanceList (doc : Doc) : List Str → Str → Str
  | [], _ => []
  | inh :: rest, key =>
    match lookupS doc inh with
    | some base =>
      match lookupS base.values key with
      | some v => v
      | none => getValueFromInheritanceList doc rest key
    | none => getValueFromInheritanceList doc rest key

/-- `CFGParser::getValueFromInheritance`. -/
def getValueFromInheritance (doc : Doc) (sectionData : Section) (key : Str) : Str :=
  getValueFromInheritanceList doc sectionData.inheritances key

/-- Formalization of the specification's description of the inheritance
lookup: the value of the key from the first base section that defines it,
when any does.  Used to compare the code's lookup against the spec's words. -/
def firstInheritedValue (doc : Doc) (inhs : List Str) (key : Str) : Option Str :=
  inhs.findSome? (fun inh => (lookupS doc inh).bind (fun base => lookupS base.values key))

/-- `CFGParser::getString`. -/
def getString (doc : Doc) (sct key default_value : Str) : Str :=
  match lookupS doc sct with
  | some sec =>
    match lookupS sec.values key with
    | some v => v
    | none =>
      let v := getValueFromInheritance doc sec key
      if v ≠ [] then v else default_value
  | none => default_value

/-- A model of `std::stoi`: skip leading whitespace, an optional sign, then
at least one decimal digit (further characters are ignored); `none` models
the `std::invalid_argument` exception when no digit is found.  Overflow is
not modelled (the result is an unbounded integer). -/
def stoiDigits (l : Str) (acc : Nat) : Nat :=
  match l with
  | [] => acc
  | c :: rest => if c.isDigit then stoiDigits rest (acc * 10 + (c.toNat - 48)) else acc

/-- Sign-and-digits part of the `std::stoi` model. -/
def stoiSigned : Str → Option Int
  | [] => none
  | c :: rest =>
    if c = '-' then
      match rest with
      | [] => none
      | d :: _ => if d.isDigit then some (-(stoiDigits rest 0 : Int)) else none
    else if c = '+' then
      match rest with
      | [] => none
      | d :: _ => if d.isDigit then some (stoiDigits rest 0 : Int) else none
    else if c.isDigit then some (stoiDigits (c :: rest) 0 : Int)
    else none

/-- `std::stoi`, as called by `makeValueFromString<int>`. -/
def stoi (l : Str) : Option Int :=
  stoiSigned (l.dropWhile (fun c => c = ' ' ∨ c = '\t' ∨ c = '\n'))

/-- The splitting loop of `CFGParser::getArray`: accumulate characters into
`num_str`, pushing at each `','`, and push the final accumulator. -/
def splitOnComma : Str → List Str
  | [] => [[]]
  | c :: rest =>
    match splitOnComma rest with
    | [] => [[c]]
    | h :: t => if c = ',' then [] :: h :: t else (c :: h) :: t

/-- Convert every comma-separated segment; `none` models a conversion
exception escaping from any segment. -/
def convSegments : List Str → Option (List Int)
  | [] => some []
  | seg :: rest =>
    match stoi seg, convSegments rest with
    | some v, some vs => some (v :: vs)
    | _, _ => none

/-- `CFGParser::getArray<int>`: split the raw string value on commas and
convert each segment; the empty raw string yields the empty array.  `none`
models the `std::stoi` exception propagating out of the call. -/
def getArrayInt (doc : Doc) (sct key : Str) : Option (List Int) :=
  let s := getString doc sct key []
  if s ≠ [] then convSegments (splitOnComma s)
  else some []

/-- The `vec2<T>` aggregate. -/
structure vec2 where
  x : Int
  y : Int
deriving DecidableEq, Repr

/-- The `vec3<T>` aggregate. -/
structure vec3 where
  x : Int
  y : Int
  z : Int
deriving DecidableEq, Repr

/-- The `vec4<T>` aggregate. -/
structure vec4 where
  x : Int
  y : Int
  z : Int
  w : Int
deriving DecidableEq, Repr

/-- `CFGParser::getVec2<int>`: when the array is non-empty the code reads
`vec[0]` and `vec[1]` unconditionally; `none` models either a conversion
exception from `getArray` or an out-of-bounds vector access (undefined
behavior in the C++).  The second component is the message-sink output. -/
def getVec2 (doc : Doc) (sct key : Str) (default_value : vec2) : Option vec2 × List Str :=
  match getArrayInt doc sct key with
  | none => (none, [])
  | some vec =>
    if vec ≠ [] then
      match vec[0]?, vec[1]? with
      | some a, some b => (some (vec2.mk a b), [])
      | _, _ => (none, [])
    else
      (some default_value,
        [str "Cannot find \"" ++ sct ++ [':'] ++ key ++ str "\". Default value will be return..."])

/-- `CFGParser::getVec4<int>`, on the same pattern as `getVec2`. -/
def getVec4 (doc : Doc) (sct key : Str) (default_value : vec4) : Option vec4 × List Str :=
  match getArrayInt doc sct key with
  | none => (none, [])
  | some vec =>
    if vec ≠ [] then
      match vec[0]?, vec[1]?, vec[2]?, vec[3]? with
      | some a, some b, some c, some d => (some (vec4.mk a b c d), [])
      | _, _, _, _ => (none, [])
    else
      (some default_value,
        [str "Cannot find \"" ++ sct ++ [':'] ++ key ++ str "\". Default value will be return..."])

/-- `CFGParser::set<int>`: overwrite an existing key of an existing section
(`std::to_string` of the value); otherwise emit a diagnostic and leave the
document unchanged.  Returns the document and the message-sink output. -/
def setValue (doc : Doc) (sct key : Str) (value : Int) : Doc × List Str :=
  match lookupS doc sct with
  | some sec =>
    if (lookupS sec.values key).isSome then
      (updateS doc sct (fun sc =>
        { sc with values := insertS sc.values key (Int.repr value).data }), [])
    else
      (doc, [str "Section \"" ++ sct ++ str "\" key \"" ++ key ++ str "\" is not exist!"])
  | none =>
    (doc, [str "Section \"" ++ sct ++ str "\" is not exist!"])

/-- Comma-space-separated join, as written by the serializer's loops. -/
def joinSep (sep : Str) : List Str → Str
  | [] => []
  | [x] => x
  | x :: y :: rest => x ++ sep ++ joinSep sep (y :: rest)

/-- The text `CFGParser::save` writes for one section. -/
def saveSection (name : Str) (sec : Section) : Str :=
  str "[" ++ name ++ str "]" ++
  (if sec.inheritances ≠ [] then str " : " ++ joinSep (str ", ") sec.inheritances else []) ++
  (if sec.attributes ≠ [] then str " = " ++ joinSep (str ", ") sec.attributes else []) ++
  str "\n" ++
  (sec.values.map (fun p => p.1 ++ str " = " ++ p.2 ++ str "\n")).flatten ++
  str "\n"

/-- `CFGParser::save`: the concatenated per-section blocks, with the sections
iterated in the model's stored order. -/
def save : Doc → Str
  | [] => []
  | (n, sec) :: rest => saveSection n sec ++ save rest

/-- The fifteen characters the read loop treats specially (every other
character falls into the `default` accumulation branch). -/
def specialChar (c : Char) : Bool :=
  c = ';' || c = '|' || c = ' ' || c = '\t' || c = '\\' || c = '\"' || c = '#' ||
  c = '\n' || c = '<' || c = '>' || c = '[' || c = ']' || c = ',' || c = ':' || c = '='

/-- The concrete document refuting claim C1: section `A` has no own `k` and
inherits `B`; `B` (the first base) defines `k` as the empty string. -/
def docC1 : Doc :=
  [(str "A", Section.mk [str "B"] [] []),
   (str "B", Section.mk [] [] [(str "k", [])])]

/-- The file-system environment for the claim C9 witness: one file named
`f.cfg` declaring the single section `X`. -/
def envC9 : Env := fun p => if p = str "f.cfg" then some (str "[X]\n") else none

/-- The claimed document invariant: every name stored in any section's
inheritances list is a key of the sections map. -/
def InhInv (doc : Doc) : Prop :=
  ∀ p ∈ doc, ∀ i ∈ (Prod.snd p).inheritances, (lookupS doc i).isSome = true

instance decInhInv (doc : Doc) : Decidable (InhInv doc) :=
  inferInstanceAs (Decidable (∀ p ∈ doc, ∀ i ∈ (Prod.snd p).inheritances,
    (lookupS doc i).isSome = true))

/-- The state at the start of a physical line during a well-formed parse:
fresh-line action, cleared token buffers (the section-name buffer keeps the
last header's name: the code never clears it at `']'`). -/
def nlState (doc : Doc) (msgs : List Str) (bp sb : Str) (ctx : Option Str)
    (cp ln : Nat) : LState :=
  { doc := doc, msgs := msgs, basePath := bp, sectionBuf := sb,
    inheritBuf := [], attrBuf := [], keyBuf := [], valueBuf := [],
    prep1 := [], prep2 := [], ctx := ctx, action := .NEW_LINE,
    line := ln, charPos := cp, ignoreSpaces := true }

/-- A string whose characters are all handled by the read loop's default
accumulation branch. -/
def plainStr (l : Str) : Bool := l.all (fun c => !specialChar c)

/-- A string allowed as a raw value in a round-trippable document: default
characters plus the array separator. -/
def valueStr (l : Str) : Bool := l.all (fun c => !specialChar c || c = ',')

/-- All keys of an association list distinct. -/
def nodupKeys {α : Type} : List (Str × α) → Bool
  | [] => true
  | (k, _) :: rest => !(lookupS rest k).isSome && nodupKeys rest

/-- Well-formedness of a document tail for the round-trip theorem, relative
to the names already declared: names and keys are non-empty strings of
default characters and are not redeclared, values use default characters and
commas, and every inheritance refers to an already-declared section (or the
section itself) — the conditions under which `save`'s output parses back. -/
def SaveableDoc : List Str → Doc → Bool
  | _, [] => true
  | names, (n, sec) :: rest =>
    decide (n ≠ []) && plainStr n && !(decide (n ∈ names)) &&
    sec.inheritances.all (fun i => decide (i ≠ []) && plainStr i && decide (i ∈ n :: names)) &&
    sec.attributes.all (fun a => decide (a ≠ []) && plainStr a) &&
    nodupKeys sec.values &&
    sec.values.all (fun p => decide (p.1 ≠ []) && plainStr p.1 && valueStr p.2) &&
    SaveableDoc (n :: names) rest

/-- Round-trippable document: `SaveableDoc` from the empty name set. -/
def Saveable (doc : Doc) : Bool := SaveableDoc [] doc

/-- Key-to-value mappings equivalent as maps (same keys, same values). -/
def valuesEquiv (v1 v2 : List (Str × Str)) : Bool :=
  v1.all (fun p => lookupS v2 p.1 = some p.2) && v2.all (fun p => lookupS v1 p.1 = some p.2)

/-- The equivalence claimed by the round-trip property: same set of section
names, and per section the same inheritance list, attribute list and
key-to-value mapping. -/
def docEquiv (d1 d2 : Doc) : Bool :=
  d1.all (fun p =>
    match lookupS d2 p.1 with
    | some sec =>
      decide (sec.inheritances = p.2.inheritances) &&
      decide (sec.attributes = p.2.attributes) &&
      valuesEquiv p.2.values sec.values
    | none => false) &&
  d2.all (fun p => (lookupS d1 p.1).isSome)

/-- The concrete document refuting claim C7: one section whose value holds a
space. -/
def docC7 : Doc := [(str "S", Section.mk [] [] [(str "k", str "a b")])]

/-- A concrete round-trippable document exercising the amended C7 theorem:
two sections with inheritances, an attribute and array/plain values. -/
def docW7 : Doc :=
  [(str "A", Section.mk [] [] [(str "k", str "1,2")]),
   (str "B", Section.mk [str "A", str "B"] [str "x"] [(str "a", str "z")])]

/-! Helper lemmas about the association-list operations. -/

theorem lookupS_updateS {α : Type} (l : List (Str × α)) (k k' : Str) (f : α → α) :
    lookupS (updateS l k f) k' =
      if k' = k then (lookupS l k').map f else lookupS l k' := by
  induction l with
  | nil =>
    simp only [updateS, lookupS, Option.map_none']
    split <;> rfl
  | cons p rest ih =>
    obtain ⟨a, b⟩ := p
    simp only [updateS, lookupS]
    by_cases hak : a = k
    · subst hak
      by_cases hk' : a = k'
      · subst hk'
        simp [lookupS]
      · have h2 : ¬ k' = a := fun h => hk' h.symm
        simp [lookupS, hk', h2]
    · by_cases hk' : a = k'
      · subst hk'
        simp [lookupS, hak]
      · simp [lookupS, hak, hk', ih]

theorem updateS_map_fst {α : Type} (l : List (Str × α)) (k : Str) (f : α → α) :
    (updateS l k f).map Prod.fst = l.map Prod.fst := by
  induction l with
  | nil => rfl
  | cons p rest ih =>
    obtain ⟨a, b⟩ := p
    by_cases hak : a = k <;> simp [updateS, hak, ih]

theorem insertS_map_fst_of_mem {α : Type} (l : List (Str × α)) (k : Str) (v : α)
    (h : (lookupS l k).isSome) :
    (insertS l k v).map Prod.fst = l.map Prod.fst := by
  induction l with
  | nil => simp [lookupS] at h
  | cons p rest ih =>
    obtain ⟨a, b⟩ := p
    by_cases hak : a = k
    · simp [insertS, hak]
    · simp [lookupS, hak] at h
      simp [insertS, hak, ih h]

theorem lookupS_isSome_updateS {α : Type} (l : List (Str × α)) (k k' : Str) (f : α → α) :
    (lookupS (updateS l k f) k').isSome = (lookupS l k').isSome := by
  rw [lookupS_updateS]
  by_cases h : k' = k <;> simp [h]

theorem lookupS_append {α : Type} (l l2 : List (Str × α)) (k : Str) :
    lookupS (l ++ l2) k = ((lookupS l k).or (lookupS l2 k)) := by
  induction l with
  | nil => simp [lookupS]
  | cons p rest ih =>
    obtain ⟨a, b⟩ := p
    by_cases hak : a = k <;> simp [lookupS, hak, ih]

/-! Reduction lemmas for the read loop: one step on each special character
dispatches to the corresponding switch-case function. -/

theorem step_semicolon (s : LState) : step ';' s = bump (semicolonCore s) := rfl

theorem step_pipe (s : LState) : step '|' s = bump (pipeCore s) := rfl

theorem step_space (s : LState) : step ' ' s = bump (spaceCore ' ' s) := rfl

theorem step_tab (s : LState) : step '\t' s = bump (spaceCore '\t' s) := rfl

theorem step_backslash (s : LState) : step '\\' s = bump (backslashCore s) := rfl

theorem step_quote (s : LState) : step '\"' s = bump (quoteCore s) := rfl

theorem step_hash (s : LState) : step '#' s = bump (hashCore s) := rfl

theorem step_newline (s : LState) : step '\n' s = bump (newlineCore s) := rfl

theorem step_lt (s : LState) : step '<' s = bump (ltCore s) := rfl

theorem step_gt (s : LState) : step '>' s = bump (gtCore s) := rfl

theorem step_lbrack (s : LState) : step '[' s = bump (lbrackCore s) := rfl

theorem step_rbrack (s : LState) : step ']' s = bump (rbrackCore s) := rfl

theorem step_comma (s : LState) : step ',' s = bump (commaCore s) := rfl

theorem step_colon (s : LState) : step ':' s = bump (colonCore s) := rfl

theorem step_eqchar (s : LState) : step '=' s = bump (eqCore s) := rfl

/-- A non-special character dispatches to the default accumulation branch. -/
theorem step_plain (c : Char) (s : LState) (h : specialChar c = false) :
    step c s = bump (defaultCore c s) := by
  simp only [specialChar, Bool.or_eq_false_iff, decide_eq_false_iff_not] at h
  obtain ⟨⟨⟨⟨⟨⟨⟨⟨⟨⟨⟨⟨⟨⟨h1, h2⟩, h3⟩, h4⟩, h5⟩, h6⟩, h7⟩, h8⟩, h9⟩, h10⟩, h11⟩,
    h12⟩, h13⟩, h14⟩, h15⟩ := h
  unfold step core
  rw [if_neg h1, if_neg h2, if_neg h3, if_neg h4, if_neg h5, if_neg h6, if_neg h7,
    if_neg h8, if_neg h9, if_neg h10, if_neg h11, if_neg h12, if_neg h13, if_neg h14,
    if_neg h15]

/-- Exhaustive enumeration of the special characters, for case analysis. -/
theorem specialChar_cases (c : Char) (h : specialChar c = true) :
    c = ';' ∨ c = '|' ∨ c = ' ' ∨ c = '\t' ∨ c = '\\' ∨ c = '\"' ∨ c = '#' ∨
    c = '\n' ∨ c = '<' ∨ c = '>' ∨ c = '[' ∨ c = ']' ∨ c = ',' ∨ c = ':' ∨ c = '=' := by
  simpa [specialChar, Bool.or_eq_true, decide_eq_true_eq, or_assoc] using h

/-- A pending inheritance flush with a null section context does nothing
(in particular the buffer is not cleared). -/
theorem pushInheritance_none (s : LState) (h : s.ctx = none) : pushInheritance s = s := by
  unfold pushInheritance
  rw [h]
  split <;> rfl

/-- A pending attribute flush with a null section context does nothing
(in particular the buffer is not cleared). -/
theorem pushAttribute_none (s : LState) (h : s.ctx = none) : pushAttribute s = s := by
  unfold pushAttribute
  rw [h]
  split <;> rfl

/-! Lemmas for the inheritance invariant (claim C8). -/

theorem escCore_doc (oc : Option Char) (s : LState) : (escCore oc s).doc = s.doc := by
  cases oc with
  | none => rfl
  | some c => simp only [escCore]; split_ifs <;> rfl

theorem mem_updateS {α : Type} (l : List (Str × α)) (k : Str) (f : α → α)
    (p : Str × α) (hp : p ∈ updateS l k f) :
    p ∈ l ∨ ∃ v, (k, v) ∈ l ∧ p = (k, f v) := by
  induction l with
  | nil => simp [updateS] at hp
  | cons q rest ih =>
    obtain ⟨a, b⟩ := q
    by_cases hak : a = k
    · subst hak
      simp only [updateS, if_pos rfl] at hp
      cases hp with
      | head => exact Or.inr ⟨b, List.mem_cons_self _ _, rfl⟩
      | tail _ hp => exact Or.inl (List.mem_cons_of_mem _ hp)
    · simp only [updateS, if_neg hak] at hp
      cases hp with
      | head => exact Or.inl (List.mem_cons_self _ _)
      | tail _ hp =>
        rcases ih hp with hmem | ⟨v, hv, hpe⟩
        · exact Or.inl (List.mem_cons_of_mem _ hmem)
        · exact Or.inr ⟨v, List.mem_cons_of_mem _ hv, hpe⟩

theorem inhInv_updateS_push (doc : Doc) (n i0 : Str)
    (h : InhInv doc) (hi : (lookupS doc i0).isSome = true) :
    InhInv (updateS doc n (fun sec =>
      { sec with inheritances := sec.inheritances ++ [i0] })) := by
  intro p hp i himem
  rw [lookupS_isSome_updateS]
  rcases mem_updateS _ _ _ _ hp with hmem | ⟨v, hv, rfl⟩
  · exact h p hmem i himem
  · simp only [List.mem_append, List.mem_singleton] at himem
    rcases himem with hin | rfl
    · exact h (n, v) hv i hin
    · exact hi

theorem inhInv_updateS_keep (doc : Doc) (n : Str) (f : Section → Section)
    (h : InhInv doc) (hf : ∀ sec, (f sec).inheritances = sec.inheritances) :
    InhInv (updateS doc n f) := by
  intro p hp i himem
  rw [lookupS_isSome_updateS]
  rcases mem_updateS _ _ _ _ hp with hmem | ⟨v, hv, rfl⟩
  · exact h p hmem i himem
  · rw [hf v] at himem
    exact h (n, v) hv i himem

theorem inhInv_append_new (doc : Doc) (n : Str) (h : InhInv doc) :
    InhInv (doc ++ [(n, Section.mk [] [] [])]) := by
  intro p hp i himem
  rw [lookupS_append]
  rcases List.mem_append.1 hp with hmem | hmem
  · have := h p hmem i himem
    cases hl : lookupS doc i with
    | none => rw [hl] at this; simp at this
    | some v => simp [Option.or, hl]
  · simp only [List.mem_singleton] at hmem
    subst hmem
    simp at himem

theorem inhInv_pushInheritance (s : LState) (h : InhInv s.doc) :
    InhInv (pushInheritance s).doc := by
  unfold pushInheritance
  split
  · cases hc : s.ctx with
    | none => exact h
    | some n =>
      by_cases hl : (lookupS s.doc s.inheritBuf).isSome
      · simp only [hl, if_true]
        exact inhInv_updateS_push s.doc n s.inheritBuf h hl
      · simp only [hl, if_false]
        exact h
  · exact h

theorem inhInv_pushAttribute (s : LState) (h : InhInv s.doc) :
    InhInv (pushAttribute s).doc := by
  unfold pushAttribute
  split
  · cases hc : s.ctx with
    | none => exact h
    | some n => exact inhInv_updateS_keep s.doc n _ h (fun sec => rfl)
  · exact h

theorem inhInv_step (c : Char) (s : LState) (h : InhInv s.doc) :
    InhInv (step c s).doc := by
  obtain ⟨doc, msgs, bp, sb, ib, ab, kb, vb, p1, p2, ctx, action, line, cp, ign⟩ := s
  replace h : InhInv doc := h
  by_cases hsp : specialChar c = true
  · rcases specialChar_cases c hsp with
      rfl | rfl | rfl | rfl | rfl | rfl | rfl | rfl | rfl | rfl | rfl | rfl | rfl | rfl | rfl
    · rw [step_semicolon]; cases action <;> exact h
    · rw [step_pipe]; cases action <;> exact h
    · rw [step_space]
      cases action <;> first | exact h | (simp only [spaceCore]; split <;> exact h)
    · rw [step_tab]
      cases action <;> first | exact h | (simp only [spaceCore]; split <;> exact h)
    · rw [step_backslash]; cases action <;> exact h
    · rw [step_quote]; cases action <;> exact h
    · rw [step_hash]; cases action <;> exact h
    · rw [step_newline]
      cases action <;>
        first
          | exact h
          | (simp only [newlineCore]; split <;> exact inhInv_pushInheritance _ h)
          | (simp only [newlineCore]; split <;> exact inhInv_pushAttribute _ h)
          | (simp only [newlineCore]
             cases ctx with
             | none => split <;> exact h
             | some n => split <;> exact inhInv_updateS_keep doc n _ h (fun sec => rfl))
    · rw [step_lt]; cases action <;> exact h
    · rw [step_gt]; cases action <;> exact h
    · rw [step_lbrack]; cases action <;> exact h
    · rw [step_rbrack]
      cases action <;>
        first
          | exact h
          | (simp only [rbrackCore]
             by_cases hl : (lookupS doc sb).isSome
             · simp only [hl, if_true]
               exact h
             · simp only [hl, if_false]
               exact inhInv_append_new doc sb h)
    · rw [step_comma]
      cases action <;>
        first
          | exact h
          | exact inhInv_pushInheritance _ h
          | exact inhInv_pushAttribute _ h
    · rw [step_colon]; cases action <;> exact h
    · rw [step_eqchar]
      cases action <;>
        first
          | exact h
          | exact inhInv_pushInheritance _ h
          | (simp only [eqCore]
             cases ctx with
             | none => exact h
             | some n =>
               simp only []
               cases hl : lookupS doc n with
               | none => exact h
               | some sec =>
                 simp only []
                 by_cases hk : (lookupS sec.values kb).isSome
                 · simp only [hk, if_true]
                   exact h
                 · simp only [hk, if_false]
                   exact inhInv_updateS_keep doc n _ h (fun sc => rfl))
  · rw [Bool.not_eq_true] at hsp
    rw [step_plain c _ hsp]
    cases action <;> exact h

theorem runChars_cons (inc : IncT) (c : Char) (cs : List Char) (s : LState)
    (h1 : ¬(c = '\\' ∧ s.action = .STRING_VALUE))
    (h2 : ¬(c = '>' ∧ s.action = .INCLUDE)) :
    runChars inc (c :: cs) s = runChars inc cs (step c s) := by
  rw [runChars.eq_def]
  simp only []
  rw [if_neg h1, if_neg h2]

theorem runChars_esc_cons (inc : IncT) (c2 : Char) (cs2 : List Char) (s : LState)
    (h : s.action = .STRING_VALUE) :
    runChars inc ('\\' :: c2 :: cs2) s = runChars inc cs2 (bump (escCore (some c2) s)) := by
  rw [runChars.eq_def]
  simp only []
  rw [if_pos ⟨trivial, h⟩]

theorem runChars_esc_last (inc : IncT) (s : LState) (h : s.action = .STRING_VALUE) :
    runChars inc ['\\'] s = bump (escCore none s) := by
  rw [runChars.eq_def]
  simp only []
  rw [if_pos ⟨trivial, h⟩]

theorem runChars_include (inc : IncT) (cs : List Char) (s : LState)
    (h : s.action = .INCLUDE) :
    runChars inc ('>' :: cs) s =
      runChars inc cs (bump { s with
        doc := (inc s.basePath s.prep2 s.doc s.msgs).1,
        msgs := (inc s.basePath s.prep2 s.doc s.msgs).2,
        prep2 := [] }) := by
  have h1 : ¬('>' = '\\' ∧ s.action = .STRING_VALUE) := by
    rintro ⟨hc, _⟩
    exact absurd hc (by decide)
  rw [runChars.eq_def]
  simp only []
  rw [if_neg h1, if_pos ⟨trivial, h⟩]

theorem inhInv_runChars (inc : IncT)
    (hinc : ∀ b a d m, InhInv d → InhInv (inc b a d m).1) :
    ∀ cs s, InhInv s.doc → InhInv (runChars inc cs s).doc := by
  intro cs s
  refine runChars.induct inc
    (fun cs s => InhInv s.doc → InhInv (runChars inc cs s).doc) ?_ ?_ ?_ ?_ ?_ cs s
  · intro s h
    exact h
  · intro c s hcond h
    obtain ⟨rfl, hsv⟩ := hcond
    rw [runChars_esc_last inc s hsv]
    show InhInv (escCore none s).doc
    rw [escCore_doc]
    exact h
  · intro c s hcond c2 cs2 ih h
    obtain ⟨rfl, hsv⟩ := hcond
    rw [runChars_esc_cons inc c2 cs2 s hsv]
    refine ih ?_
    show InhInv (escCore (some c2) s).doc
    rw [escCore_doc]
    exact h
  · intro c cs s hne hcond r ih h
    obtain ⟨rfl, hinc2⟩ := hcond
    rw [runChars_include inc cs s hinc2]
    exact ih (hinc _ _ _ _ h)
  · intro c cs s hne1 hne2 ih h
    rw [runChars_cons inc c cs s hne1 hne2]
    exact ih (inhInv_step c s h)

theorem inhInv_includeFn (env : Env) :
    ∀ fuel b a d m, InhInv d → InhInv ((includeFn env fuel) b a d m).1 := by
  intro fuel
  induction fuel with
  | zero => intro b a d m h; exact h
  | succ fuel ih =>
    intro b a d m h
    simp only [includeFn, loadWith]
    cases he : env (b ++ a) with
    | none => exact h
    | some content =>
      exact inhInv_runChars (includeFn env fuel) ih (content ++ ['\n']) (initState d m b) h

/-! Claim C1: `getString` resolution through inheritance. -/

/-- The code's inheritance walk agrees with a first-match `findSome?` over
the inheritance list, up to the empty dummy string standing for "no match". -/
theorem getValueFromInheritanceList_eq (doc : Doc) (inhs : List Str) (key : Str) :
    getValueFromInheritanceList doc inhs key =
      (firstInheritedValue doc inhs key).getD [] := by
  induction inhs with
  | nil => rfl
  | cons i rest ih =>
    simp only [getValueFromInheritanceList, firstInheritedValue, List.findSome?_cons]
    cases h : lookupS doc i with
    | none => simpa [h, firstInheritedValue] using ih
    | some base =>
      cases h2 : lookupS base.values key with
      | none => simpa [h, h2, firstInheritedValue] using ih
      | some v => simp [h, h2]

/-- Claim C1, counterexample: on `docC1` the first (and only) base section
`B` defines `k` (as the empty string), so the claim says `getString`
returns `B`'s value `""`; the code returns the default `"d"` instead,
because `getString` only accepts a non-empty inherited value. -/
theorem c1_counterexample :
    hasSection docC1 (str "A") = true ∧
    (lookupS docC1 (str "A")).map Section.inheritances = some [str "B"] ∧
    hasKey docC1 (str "A") (str "k") = false ∧
    hasKey docC1 (str "B") (str "k") = true ∧
    getValueFromInheritance docC1 (Section.mk [str "B"] [] []) (str "k") = [] ∧
    getString docC1 (str "A") (str "k") (str "d") = str "d" := by
  refine ⟨rfl, rfl, rfl, rfl, rfl, rfl⟩

/-- Claim C1, amended: `getString` returns the section's own stored value
when present; otherwise it takes the value of the key from the first base
section (one level, declared order) that defines it, and returns that value
only when it is non-empty — when the first defining base stores the empty
string, or no base defines the key, the default is returned; a missing
section returns the default directly. -/
theorem c1_getString_amended (doc : Doc) (sct key d : Str) :
    getString doc sct key d =
      match lookupS doc sct with
      | none => d
      | some sec =>
        match lookupS sec.values key with
        | some v => v
        | none =>
          match firstInheritedValue doc sec.inheritances key with
          | some v => if v = [] then d else v
          | none => d := by
  cases h : lookupS doc sct with
  | none => simp [getString, h]
  | some sec =>
    cases h2 : lookupS sec.values key with
    | some v => simp [getString, h, h2]
    | none =>
      simp only [getString, h, h2, getValueFromInheritance, getValueFromInheritanceList_eq]
      cases h3 : firstInheritedValue doc sec.inheritances key with
      | none => simp
      | some v =>
        by_cases hv : v = [] <;> simp [hv]

/-! Claim C4: `getVecN` underflow. -/

/-- Claim C4, failing input: a section whose key holds the single-element
array `5`.  `getArray<int>` succeeds with one element, yet `getVec2` (and
`getVec4`) take the branch that reads `vec[1u]` (resp. up to `vec[3u]`),
an out-of-bounds access on a one-element vector (modelled as `none`): the
fewer-than-N case returns the default with a diagnostic ONLY when the array
is empty, contradicting the claim for one- or two-element arrays. -/
theorem c4_vec_underflow_bug :
    getArrayInt (parseDoc (str "[S]\nk = 5\n")) (str "S") (str "k") = some [5] ∧
    getVec2 (parseDoc (str "[S]\nk = 5\n")) (str "S") (str "k") (vec2.mk 0 0) = (none, []) ∧
    getVec4 (parseDoc (str "[S]\nk = 5\n")) (str "S") (str "k") (vec4.mk 0 0 0 0) = (none, []) ∧
    getVec2 (parseDoc (str "[S]\nk = 5\n")) (str "S") (str "other") (vec2.mk 9 9) =
      (some (vec2.mk 9 9),
       [str "Cannot find \"S:other\". Default value will be return..."]) := by
  refine ⟨by decide, by decide, by decide, by decide⟩

/-! Claim C10: `set` only overwrites existing keys. -/

/-- Claim C10: `set` overwrites the value only when the section exists and
already contains the key; a missing section, or a missing key in an existing
section, yields one diagnostic and leaves the document completely unchanged;
in every case the set of section names and every section's key list are
unchanged, so `set` never creates a section or a key. -/
theorem c10_set_only_overwrites (doc : Doc) (sct key : Str) (v : Int) :
    (lookupS doc sct = none →
      setValue doc sct key v =
        (doc, [str "Section \"" ++ sct ++ str "\" is not exist!"])) ∧
    (∀ sec, lookupS doc sct = some sec → lookupS sec.values key = none →
      setValue doc sct key v =
        (doc, [str "Section \"" ++ sct ++ str "\" key \"" ++ key ++ str "\" is not exist!"])) ∧
    (∀ sec w, lookupS doc sct = some sec → lookupS sec.values key = some w →
      setValue doc sct key v =
        (updateS doc sct (fun sc =>
          { sc with values := insertS sc.values key (Int.repr v).data }), [])) ∧
    ((setValue doc sct key v).1.map Prod.fst = doc.map Prod.fst) ∧
    (∀ n, ((lookupS (setValue doc sct key v).1 n).map (fun sc => sc.values.map Prod.fst)) =
      ((lookupS doc n).map (fun sc => sc.values.map Prod.fst))) := by
  refine ⟨?_, ?_, ?_, ?_, ?_⟩
  · intro h; simp [setValue, h]
  · intro sec h h2; simp [setValue, h, h2]
  · intro sec w h h2; simp [setValue, h, h2]
  · unfold setValue
    cases h : lookupS doc sct with
    | none => rfl
    | some sec =>
      by_cases h2 : (lookupS sec.values key).isSome <;> simp [h2, updateS_map_fst]
  · intro n
    unfold setValue
    cases h : lookupS doc sct with
    | none => rfl
    | some sec =>
      by_cases h2 : (lookupS sec.values key).isSome
      · simp only [h2, if_true]
        rw [lookupS_updateS]
        by_cases hn : n = sct
        · subst hn
          simp [h, insertS_map_fst_of_mem _ _ _ h2]
        · simp [hn]
      · simp [h2]

/-- Witness for claim C10 at concrete inputs: one instance per hypothesis-
carrying conjunct. -/
theorem c10_set_witness :
    (setValue [] (str "S") (str "k") 3 =
      ([], [str "Section \"S\" is not exist!"])) ∧
    (setValue [(str "S", Section.mk [] [] [])] (str "S") (str "k") 3 =
      ([(str "S", Section.mk [] [] [])],
       [str "Section \"S\" key \"k\" is not exist!"])) ∧
    (setValue [(str "S", Section.mk [] [] [(str "k", str "5")])] (str "S") (str "k") 3 =
      (updateS [(str "S", Section.mk [] [] [(str "k", str "5")])] (str "S") (fun sc =>
        { sc with values := insertS sc.values (str "k") (Int.repr 3).data }), [])) := by
  refine ⟨(c10_set_only_overwrites [] (str "S") (str "k") 3).1 rfl,
    (c10_set_only_overwrites [(str "S", Section.mk [] [] [])] (str "S") (str "k") 3).2.1
      (Section.mk [] [] []) rfl rfl,
    (c10_set_only_overwrites [(str "S", Section.mk [] [] [(str "k", str "5")])]
      (str "S") (str "k") 3).2.2.1 (Section.mk [] [] [(str "k", str "5")]) (str "5") rfl rfl⟩

/-! Claim C9: the include directive's frame property. -/

/-- Claim C9: when `'>'` closes an include argument, the named file
(base path ++ argument) is loaded into the same document being built, and
the outer loop continues with only the document, the message sink and the
include-argument buffer changed (plus the per-character position increment):
the record update in the first conjunct lists every changed component, so
the outer line counter, state and the section/inheritance/attribute/key/value
and preprocessor-name buffers are exactly those from before the include, and
the argument buffer is cleared back to its value from before the directive.
When the file cannot be opened, the load leaves the document unchanged and
emits exactly one diagnostic, a no-op otherwise; when it can, the load is the
full nested parse of its content into the same document. -/
theorem c9_include_frame (env : Env) (fuel : Nat) (cs : List Char) (s : LState)
    (h : s.action = .INCLUDE) :
    (run env (fuel + 1) ('>' :: cs) s =
      run env (fuel + 1) cs
        { s with
            doc := (load env fuel (s.basePath ++ s.prep2) s.doc s.msgs s.basePath).1,
            msgs := (load env fuel (s.basePath ++ s.prep2) s.doc s.msgs s.basePath).2,
            prep2 := [],
            charPos := s.charPos + 1 }) ∧
    (env (s.basePath ++ s.prep2) = none →
      load env fuel (s.basePath ++ s.prep2) s.doc s.msgs s.basePath =
        (s.doc, s.msgs ++ [cannotOpenMsg (s.basePath ++ s.prep2)])) ∧
    (∀ content, env (s.basePath ++ s.prep2) = some content →
      load env fuel (s.basePath ++ s.prep2) s.doc s.msgs s.basePath =
        ((run env fuel (content ++ ['\n']) (initState s.doc s.msgs s.basePath)).doc,
         (run env fuel (content ++ ['\n']) (initState s.doc s.msgs s.basePath)).msgs)) := by
  refine ⟨?_, ?_, ?_⟩
  · exact runChars_include (includeFn env (fuel + 1)) cs s h
  · intro henv
    unfold load loadWith
    rw [henv]
  · intro content henv
    unfold load loadWith
    rw [henv]
    rfl

/-- Witness for claim C9 at a concrete state and file system: one resolvable
include and one missing file. -/
theorem c9_include_witness :
    (run envC9 1 ('>' :: str "\n")
        { initState [] [] [] with action := .INCLUDE, prep2 := str "f.cfg" } =
      run envC9 1 (str "\n")
        { { initState [] [] [] with action := .INCLUDE, prep2 := str "f.cfg" } with
            doc := (load envC9 0 (str "f.cfg") [] [] []).1,
            msgs := (load envC9 0 (str "f.cfg") [] [] []).2,
            prep2 := [],
            charPos := 1 }) ∧
    (load noEnv 0 (str "g.cfg") [] [] [] =
      ([], [cannotOpenMsg (str "g.cfg")])) ∧
    (load envC9 0 (str "f.cfg") [] [] [] =
      ((run envC9 0 (str "[X]\n" ++ ['\n']) (initState [] [] [])).doc,
       (run envC9 0 (str "[X]\n" ++ ['\n']) (initState [] [] [])).msgs)) := by
  refine ⟨?_, ?_, ?_⟩
  · have h := (c9_include_frame envC9 0 (str "\n")
      { initState [] [] [] with action := .INCLUDE, prep2 := str "f.cfg" } rfl).1
    simpa using h
  · have h := (c9_include_frame noEnv 0 (str "\n")
      { initState [] [] [] with action := .INCLUDE, prep2 := str "g.cfg" } rfl).2.1 rfl
    simpa using h
  · have h := (c9_include_frame envC9 0 (str "\n")
      { initState [] [] [] with action := .INCLUDE, prep2 := str "f.cfg" } rfl).2.2
      (str "[X]\n") (by decide)
    simpa using h

/-! Claim C8: the inheritance-target invariant. -/

/-- Claim C8: starting from any state whose document satisfies the invariant
(in particular the empty document of a fresh parse), every read-loop step —
includes to any modelled depth included — preserves it: every name stored in
any section's inheritances list is a key of the sections map, at every point
during and after a parse; moreover a pending inheritance whose target is
absent at flush time is dropped (the document unchanged) with one
diagnostic. -/
theorem c8_inheritance_invariant :
    (∀ env fuel cs s, InhInv s.doc → InhInv (run env fuel cs s).doc) ∧
    (∀ input, InhInv (parseDoc input)) ∧
    (∀ s n, s.inheritBuf ≠ [] → s.ctx = some n →
      lookupS s.doc s.inheritBuf = none →
      pushInheritance s =
        { withMsg s (str "Inherited section \"" ++ s.inheritBuf ++
            str "\" is not exist!") with inheritBuf := [] }) := by
  refine ⟨?_, ?_, ?_⟩
  · intro env fuel cs s h
    exact inhInv_runChars (includeFn env fuel) (inhInv_includeFn env fuel) cs s h
  · intro input
    refine inhInv_runChars (includeFn noEnv 0) (inhInv_includeFn noEnv 0) _ _ ?_
    intro p hp
    exact absurd hp (List.not_mem_nil p)
  · intro s n hbuf hctx hlook
    unfold pushInheritance
    rw [if_pos hbuf, hctx]
    rw [hlook]
    rfl

/-- Witness for claim C8 at concrete inputs: the invariant after a run that
stores one inheritance, the invariant after a whole parse, and a dropped
dangling reference. -/
theorem c8_inheritance_witness :
    InhInv (run noEnv 1 (str "[B] : A\n")
      (initState [(str "A", Section.mk [] [] [])] [] [])).doc ∧
    InhInv (parseDoc (str "[p]\nk = 5\n[c] : p\n")) ∧
    pushInheritance { initState [] [] [] with inheritBuf := str "B", ctx := some (str "A") } =
      { withMsg { initState [] [] [] with inheritBuf := str "B", ctx := some (str "A") }
          (str "Inherited section \"B\" is not exist!") with inheritBuf := [] } := by
  refine ⟨c8_inheritance_invariant.1 noEnv 1 _ _ (by decide),
    c8_inheritance_invariant.2.1 _,
    c8_inheritance_invariant.2.2 _ (str "A") (by decide) rfl (by decide)⟩

/-! Claim C2: whitespace as separator. -/

/-- Claim C2: a space or tab read while the state is `Section`,
`Inheritance`, `Attribute`, `Key` or `Value` with the ignore-leading-spaces
flag cleared emits a diagnostic and moves the machine to `Error`; inside
`StringValue` it is appended literally; the flag is set back at every newline
and after the `']'` closing a section name. -/
theorem c2_space_separator (c : Char) (s : LState) :
    ((c = ' ' ∨ c = '\t') →
      (s.action = .SECTION ∨ s.action = .INHERITANCE ∨ s.action = .ATTRIBUTE ∨
        s.action = .KEY ∨ s.action = .VALUE) →
      s.ignoreSpaces = false →
      step c s = bump { withMsg s (str "Space in wrong place") with action := .ERROR }) ∧
    ((c = ' ' ∨ c = '\t') → s.action = .STRING_VALUE →
      step c s = bump { s with valueBuf := s.valueBuf ++ [c] }) ∧
    ((step '\n' s).ignoreSpaces = true) ∧
    (s.action = .SECTION → (step ']' s).ignoreSpaces = true) := by
  obtain ⟨doc, msgs, bp, sb, ib, ab, kb, vb, p1, p2, ctx, action, line, cp, ign⟩ := s
  refine ⟨?_, ?_, ?_, ?_⟩
  · rintro (rfl | rfl) (h | h | h | h | h) hign <;>
      (replace h : action = _ := h; replace hign : ign = false := hign;
        subst h; subst hign; rfl)
  · rintro (rfl | rfl) h <;>
      (replace h : action = .STRING_VALUE := h; subst h; rfl)
  · rfl
  · intro h
    replace h : action = .SECTION := h
    subst h
    rw [step_rbrack]
    simp only [rbrackCore]
    split <;> rfl

/-- Witness for claim C2 at a concrete state: mid-name space in a section
header errors, a space inside a string value is literal, and the flag resets. -/
theorem c2_space_witness :
    (step ' ' { initState [] [] [] with action := .SECTION, ignoreSpaces := false } =
      bump { withMsg { initState [] [] [] with action := .SECTION, ignoreSpaces := false }
        (str "Space in wrong place") with action := .ERROR }) ∧
    (step ' ' { initState [] [] [] with action := .STRING_VALUE } =
      bump { { initState [] [] [] with action := .STRING_VALUE } with valueBuf := [' '] }) ∧
    ((step '\n' (initState [] [] [])).ignoreSpaces = true) ∧
    ((step ']' { initState [] [] [] with action := .SECTION }).ignoreSpaces = true) := by
  refine ⟨(c2_space_separator ' ' _).1 (Or.inl rfl) (Or.inl rfl) rfl,
    (c2_space_separator ' ' _).2.1 (Or.inl rfl) rfl,
    (c2_space_separator ' ' _).2.2.1,
    (c2_space_separator ']' _).2.2.2 rfl⟩

/-! Claim C5: line comments. -/

/-- Claim C5, counterexample: the claim says every character of a `;` comment
up to the next newline is discarded with no effect on later lines, naming
`'|'` explicitly.  But `'|'` read in `Comment` falls into the default branch
of the `'|'` case and switches the machine to `MultilineComment`, which spans
the newline: inserting the comment line `;x|` before `k = 1` makes the
`k = 1` line disappear from the parse. -/
theorem c5_counterexample :
    hasKey (parseDoc (str "[S]\nk = 1\n")) (str "S") (str "k") = true ∧
    hasKey (parseDoc (str "[S]\n;x|\nk = 1\n")) (str "S") (str "k") = false ∧
    (step '|' { initState [] [] [] with action := .COMMENT }).action = .MULTILINE_COMMENT := by
  refine ⟨by decide, by decide, by decide⟩

/-- Claim C5, amended: in `Comment`, every character other than `'\n'` and
`'|'` is discarded with no effect on the document or token buffers; the
newline returns the machine to `NewLine` (resetting the character counter and
the leading-space flag); but `'|'` switches `Comment` to `MultilineComment`,
which continues past the newline, so a `'|'` inside a line comment does
affect how later lines parse.  Inside `StringValue`, `';'` is literal. -/
theorem c5_comment_amended (c : Char) (oc : Option Char) (s : LState) :
    (s.action = .COMMENT → c ≠ '\n' → c ≠ '|' → step c s = bump s) ∧
    (s.action = .COMMENT → step '\n' s =
      { s with action := .NEW_LINE, charPos := 1, line := s.line + 1, ignoreSpaces := true }) ∧
    (s.action = .COMMENT → step '|' s = bump { s with action := .MULTILINE_COMMENT }) ∧
    (s.action = .STRING_VALUE → step ';' s = bump { s with valueBuf := s.valueBuf ++ [';'] }) ∧
    ((escCore oc s).doc = s.doc ∧ (escCore oc s).action = s.action) := by
  obtain ⟨doc, msgs, bp, sb, ib, ab, kb, vb, p1, p2, ctx, action, line, cp, ign⟩ := s
  refine ⟨?_, ?_, ?_, ?_, ?_⟩
  · intro h hc1 hc2
    replace h : action = .COMMENT := h
    subst h
    by_cases hsp : specialChar c = true
    · rcases specialChar_cases c hsp with
        rfl | rfl | rfl | rfl | rfl | rfl | rfl | rfl | rfl | rfl | rfl | rfl | rfl | rfl | rfl <;>
        first
          | rfl
          | exact absurd rfl hc1
          | exact absurd rfl hc2
    · rw [Bool.not_eq_true] at hsp
      rw [step_plain c _ hsp]
      rfl
  · intro h
    replace h : action = .COMMENT := h
    subst h
    rfl
  · intro h
    replace h : action = .COMMENT := h
    subst h
    rfl
  · intro h
    replace h : action = .STRING_VALUE := h
    subst h
    rfl
  · cases oc with
    | none => exact ⟨rfl, rfl⟩
    | some c2 =>
      constructor <;> simp only [escCore] <;> split_ifs <;> rfl

/-- Witness for claim C5 at a concrete comment state. -/
theorem c5_comment_witness :
    (step 'x' { initState [] [] [] with action := .COMMENT } =
      bump { initState [] [] [] with action := .COMMENT }) ∧
    (step '\n' { initState [] [] [] with action := .COMMENT } =
      { { initState [] [] [] with action := .COMMENT } with
          action := .NEW_LINE, charPos := 1, line := 2, ignoreSpaces := true }) ∧
    (step '|' { initState [] [] [] with action := .COMMENT } =
      bump { { initState [] [] [] with action := .COMMENT } with action := .MULTILINE_COMMENT }) ∧
    (step ';' { initState [] [] [] with action := .STRING_VALUE } =
      bump { { initState [] [] [] with action := .STRING_VALUE } with valueBuf := [';'] }) := by
  refine ⟨(c5_comment_amended 'x' none _).1 rfl (by decide) (by decide),
    (c5_comment_amended 'x' none _).2.1 rfl,
    (c5_comment_amended 'x' none _).2.2.1 rfl,
    (c5_comment_amended 'x' none _).2.2.2.1 rfl⟩

/-! Claim C3: key redeclaration. -/

/-- Claim C3, counterexample: the claim says the redeclaration of a key is
dropped, leaving the first declaration's value (first-write-wins).  Parsing
`[S]` with `k = 1` then `k = 2` actually leaves `k` mapped to `"2"`: the
`'='` of the redeclaration only emits the diagnostic (`try_emplace` refuses
to insert), but the newline commit `values[key] = value` overwrites
unconditionally — last-write-wins. -/
theorem c3_counterexample :
    parseDoc (str "[S]\nk = 1\nk = 2\n") =
      [(str "S", Section.mk [] [] [(str "k", str "2")])] ∧
    (runChars (includeFn noEnv 0) (str "[S]\nk = 1\nk = 2\n" ++ ['\n'])
      (initState [] [] [])).msgs.length = 1 := by
  refine ⟨by decide, by decide⟩

/-- Claim C3, amended: redeclaring a key is diagnosed at the `'='` (the
placeholder `try_emplace` refuses the insert), and parsing continues; but the
redeclaration is NOT dropped — the commit at the end of the line overwrites
the stored value unconditionally, so after the parse the key is mapped to the
value of its LAST declaration (last-write-wins). -/
theorem c3_key_redeclaration_amended (s : LState) (n : Str) (sec : Section) (v0 : Str) :
    (s.action = .KEY → s.ctx = some n → lookupS s.doc n = some sec →
      lookupS sec.values s.keyBuf = some v0 →
      step '=' s = bump { withMsg s (str "Section \"" ++ s.sectionBuf ++ str "\" key \"" ++
        s.keyBuf ++ str "\" already exist.") with action := .VALUE }) ∧
    ((s.action = .VALUE ∨ s.action = .VALUE_ARRAY) → s.ctx = some n →
      step '\n' s = { s with
        doc := updateS s.doc n (fun sc =>
          { sc with values := insertS sc.values s.keyBuf s.valueBuf }),
        keyBuf := [], valueBuf := [],
        action := .NEW_LINE, charPos := 1, line := s.line + 1, ignoreSpaces := true }) := by
  constructor
  · intro h hctx hsec hkey
    simp [step, core, eqCore, h, hctx, hsec, hkey]
  · rintro (h | h) hctx <;> simp [step, core, newlineCore, bump, h, hctx]

/-- Witness for claim C3 at a concrete state: the redeclaring `'='` and the
committing newline. -/
theorem c3_key_redeclaration_witness :
    (step '=' { initState [(str "S", Section.mk [] [] [(str "k", str "1")])] [] [] with
        action := .KEY, ctx := some (str "S"), sectionBuf := str "S", keyBuf := str "k" } =
      bump { withMsg { initState [(str "S", Section.mk [] [] [(str "k", str "1")])] [] [] with
          action := .KEY, ctx := some (str "S"), sectionBuf := str "S", keyBuf := str "k" }
        (str "Section \"S\" key \"k\" already exist.") with action := .VALUE }) ∧
    (step '\n' { initState [(str "S", Section.mk [] [] [(str "k", str "1")])] [] [] with
        action := .VALUE, ctx := some (str "S"), keyBuf := str "k", valueBuf := str "2" } =
      { { initState [(str "S", Section.mk [] [] [(str "k", str "1")])] [] [] with
          action := .VALUE, ctx := some (str "S"), keyBuf := str "k", valueBuf := str "2" } with
        doc := updateS [(str "S", Section.mk [] [] [(str "k", str "1")])] (str "S") (fun sc =>
          { sc with values := insertS sc.values (str "k") (str "2") }),
        keyBuf := [], valueBuf := [],
        action := .NEW_LINE, charPos := 1, line := 2, ignoreSpaces := true }) := by
  constructor
  · have h := (c3_key_redeclaration_amended
      { initState [(str "S", Section.mk [] [] [(str "k", str "1")])] [] [] with
        action := .KEY, ctx := some (str "S"), sectionBuf := str "S", keyBuf := str "k" }
      (str "S") (Section.mk [] [] [(str "k", str "1")]) (str "1")).1 rfl rfl (by decide) (by decide)
    simpa using h
  · have h := (c3_key_redeclaration_amended
      { initState [(str "S", Section.mk [] [] [(str "k", str "1")])] [] [] with
        action := .VALUE, ctx := some (str "S"), keyBuf := str "k", valueBuf := str "2" }
      (str "S") (Section.mk [] [] []) []).2 (Or.inl rfl) rfl
    simpa using h

/-! Claim C6: duplicate section declaration. -/

/-- Claim C6, counterexample: the claim says every production of the
duplicate header's body is attached to NO section.  In
`[A]` / `[A] : A` / `[C] :` the inheritance production `A` of the duplicate
`[A] : A` header cannot be flushed (null context) but its buffer is not
cleared, and it is flushed into the NEXT section `C` — whose own header
declared an empty inheritance list — so `C` ends with inheritances `[A]`
(while `A` itself does retain exactly its first declaration's contents). -/
theorem c6_counterexample :
    parseDoc (str "[A]\n[A] : A\n[C] :\n") =
      [(str "A", Section.mk [] [] []),
       (str "C", Section.mk [str "A"] [] [])] := by
  decide

/-- Claim C6, amended: a duplicate `[X]` header emits the "already exist"
diagnostic, leaves the document unchanged and keeps the section context,
which the opening `'['` already cleared to null; and while the context is
null, no character other than a successful `']'` header close changes the
document — so `X` and every other stored section retain exactly their prior
contents, and the duplicate body's key/value lines are committed nowhere.
(The pending inheritance/attribute buffers are, however, not cleared by a
null-context flush and may leak into the next declared section, as the
counterexample shows — so the body is not entirely "discarded".) -/
theorem c6_duplicate_section_amended (c : Char) (s : LState) :
    (s.action = .SECTION → (lookupS s.doc s.sectionBuf).isSome →
      step ']' s = bump { withMsg s (str "Section \"" ++ s.sectionBuf ++
        str "\" already exist.") with ignoreSpaces := true }) ∧
    (s.action = .NEW_LINE → (step '[' s).ctx = none) ∧
    (s.ctx = none → ¬(s.action = .SECTION ∧ c = ']') → (step c s).doc = s.doc) := by
  refine ⟨?_, ?_, ?_⟩
  · intro h hdup
    simp [step, core, rbrackCore, h, hdup]
  · intro h
    simp [step, core, lbrackCore, bump, h]
  · intro hctx hni
    obtain ⟨doc, msgs, bp, sb, ib, ab, kb, vb, p1, p2, ctx, action, line, cp, ign⟩ := s
    replace hctx : ctx = none := hctx
    subst hctx
    by_cases hsp : specialChar c = true
    · rcases specialChar_cases c hsp with
        rfl | rfl | rfl | rfl | rfl | rfl | rfl | rfl | rfl | rfl | rfl | rfl | rfl | rfl | rfl
      · rw [step_semicolon]; cases action <;> rfl
      · rw [step_pipe]; cases action <;> rfl
      · rw [step_space]; cases action <;> first | rfl | (simp only [spaceCore]; split <;> rfl)
      · rw [step_tab]; cases action <;> first | rfl | (simp only [spaceCore]; split <;> rfl)
      · rw [step_backslash]; cases action <;> rfl
      · rw [step_quote]; cases action <;> rfl
      · rw [step_hash]; cases action <;> rfl
      · rw [step_newline]
        cases action <;>
          simp [newlineCore, bump, pushInheritance_none, pushAttribute_none, withMsg]
      · rw [step_lt]; cases action <;> rfl
      · rw [step_gt]; cases action <;> rfl
      · rw [step_lbrack]; cases action <;> rfl
      · rw [step_rbrack]
        cases action <;>
          first
            | rfl
            | exact absurd ⟨rfl, rfl⟩ hni
      · rw [step_comma]
        cases action <;>
          first
            | rfl
            | simp [commaCore, pushInheritance_none, pushAttribute_none, bump]
      · rw [step_colon]; cases action <;> rfl
      · rw [step_eqchar]
        cases action <;>
          first
            | rfl
            | simp [eqCore, pushInheritance_none, bump]
    · rw [Bool.not_eq_true] at hsp
      rw [step_plain c _ hsp]
      cases action <;> rfl

/-- Witness for claim C6 at a concrete state: a duplicate header close, the
context clear at `'['`, and a no-effect key commit under a null context. -/
theorem c6_duplicate_section_witness :
    (step ']' { initState [(str "A", Section.mk [] [] [])] [] [] with
        action := .SECTION, sectionBuf := str "A" } =
      bump { withMsg { initState [(str "A", Section.mk [] [] [])] [] [] with
          action := .SECTION, sectionBuf := str "A" }
        (str "Section \"A\" already exist.") with ignoreSpaces := true }) ∧
    ((step '[' (initState [(str "A", Section.mk [] [] [])] [] [])).ctx = none) ∧
    ((step '\n' { initState [(str "A", Section.mk [] [] [])] [] [] with
        action := .VALUE, keyBuf := str "k", valueBuf := str "9" }).doc =
      [(str "A", Section.mk [] [] [])]) := by
  refine ⟨?_, ?_, ?_⟩
  · have h := (c6_duplicate_section_amended ']'
      { initState [(str "A", Section.mk [] [] [])] [] [] with
        action := .SECTION, sectionBuf := str "A" }).1 rfl (by decide)
    simpa using h
  · exact (c6_duplicate_section_amended '[' _).2.1 rfl
  · exact (c6_duplicate_section_amended '\n'
      { initState [(str "A", Section.mk [] [] [])] [] [] with
        action := .VALUE, keyBuf := str "k", valueBuf := str "9" }).2.2 rfl (by decide)

/-! Claim C7: round-trip through `save`. -/

theorem lookupS_isSome_of_mem {α : Type} (l : List (Str × α)) (k : Str)
    (h : k ∈ l.map Prod.fst) : (lookupS l k).isSome = true := by
  induction l with
  | nil => simp at h
  | cons p rest ih =>
    obtain ⟨a, b⟩ := p
    by_cases hak : a = k
    · simp [lookupS, hak]
    · simp only [List.map_cons, List.mem_cons] at h
      rcases h with h | h
      · exact absurd h.symm hak
      · simp [lookupS, hak, ih h]

theorem lookupS_eq_none_of_not_mem {α : Type} (l : List (Str × α)) (k : Str)
    (h : k ∉ l.map Prod.fst) : lookupS l k = none := by
  induction l with
  | nil => rfl
  | cons p rest ih =>
    obtain ⟨a, b⟩ := p
    simp only [List.map_cons, List.mem_cons, not_or] at h
    have hna : ¬ a = k := fun he => h.1 he.symm
    simp [lookupS, hna, ih h.2]

theorem insertS_append_fresh {α : Type} (vals : List (Str × α)) (k : Str) (x v : α)
    (h : lookupS vals k = none) :
    insertS (vals ++ [(k, x)]) k v = vals ++ [(k, v)] := by
  induction vals with
  | nil => simp [insertS]
  | cons p rest ih =>
    obtain ⟨a, b⟩ := p
    simp only [lookupS] at h
    by_cases hak : a = k
    · rw [if_pos hak] at h
      exact absurd h (by simp)
    · rw [if_neg hak] at h
      simp [insertS, hak, ih h]

theorem updateS_updateS {α : Type} (l : List (Str × α)) (k : Str) (f g : α → α) :
    updateS (updateS l k f) k g = updateS l k (fun v => g (f v)) := by
  induction l with
  | nil => rfl
  | cons p rest ih =>
    obtain ⟨a, b⟩ := p
    by_cases hak : a = k <;> simp [updateS, hak, ih]

theorem updateS_congr {α : Type} (l : List (Str × α)) (k : Str) (f g : α → α)
    (h : ∀ v, f v = g v) : updateS l k f = updateS l k g := by
  have : f = g := funext h
  rw [this]

theorem updateS_append_last {α : Type} (l : List (Str × α)) (n : Str) (x : α)
    (f : α → α) (h : n ∉ l.map Prod.fst) :
    updateS (l ++ [(n, x)]) n f = l ++ [(n, f x)] := by
  induction l with
  | nil => simp [updateS]
  | cons p rest ih =>
    obtain ⟨a, b⟩ := p
    simp only [List.map_cons, List.mem_cons, not_or] at h
    have hna : ¬ a = n := fun he => h.1 he.symm
    simp [updateS, hna, ih h.2]

/-! Characterization of single steps on the states a well-formed save text
drives the parser through. -/

theorem step_plain_NL (c : Char) (s : LState) (hc : specialChar c = false)
    (h : s.action = .NEW_LINE) :
    step c s = { s with
      action := .KEY, keyBuf := s.keyBuf ++ [c], charPos := s.charPos + 1 } := by
  rw [step_plain c s hc]
  obtain ⟨doc, msgs, bp, sb, ib, ab, kb, vb, p1, p2, ctx, action, line, cp, ign⟩ := s
  replace h : action = .NEW_LINE := h
  subst h
  rfl

theorem step_plain_SECTION (c : Char) (s : LState) (hc : specialChar c = false)
    (h : s.action = .SECTION) :
    step c s = { s with sectionBuf := s.sectionBuf ++ [c], charPos := s.charPos + 1 } := by
  rw [step_plain c s hc]
  obtain ⟨doc, msgs, bp, sb, ib, ab, kb, vb, p1, p2, ctx, action, line, cp, ign⟩ := s
  replace h : action = .SECTION := h
  subst h
  rfl

theorem step_plain_INH (c : Char) (s : LState) (hc : specialChar c = false)
    (h : s.action = .INHERITANCE) :
    step c s = { s with inheritBuf := s.inheritBuf ++ [c], charPos := s.charPos + 1 } := by
  rw [step_plain c s hc]
  obtain ⟨doc, msgs, bp, sb, ib, ab, kb, vb, p1, p2, ctx, action, line, cp, ign⟩ := s
  replace h : action = .INHERITANCE := h
  subst h
  rfl

theorem step_plain_ATTR (c : Char) (s : LState) (hc : specialChar c = false)
    (h : s.action = .ATTRIBUTE) :
    step c s = { s with attrBuf := s.attrBuf ++ [c], charPos := s.charPos + 1 } := by
  rw [step_plain c s hc]
  obtain ⟨doc, msgs, bp, sb, ib, ab, kb, vb, p1, p2, ctx, action, line, cp, ign⟩ := s
  replace h : action = .ATTRIBUTE := h
  subst h
  rfl

theorem step_plain_KEY (c : Char) (s : LState) (hc : specialChar c = false)
    (h : s.action = .KEY) :
    step c s = { s with keyBuf := s.keyBuf ++ [c], charPos := s.charPos + 1 } := by
  rw [step_plain c s hc]
  obtain ⟨doc, msgs, bp, sb, ib, ab, kb, vb, p1, p2, ctx, action, line, cp, ign⟩ := s
  replace h : action = .KEY := h
  subst h
  rfl

theorem step_plain_VALUE (c : Char) (s : LState) (hc : specialChar c = false)
    (h : s.action = .VALUE ∨ s.action = .VALUE_ARRAY) :
    step c s = { s with valueBuf := s.valueBuf ++ [c], charPos := s.charPos + 1 } := by
  rw [step_plain c s hc]
  obtain ⟨doc, msgs, bp, sb, ib, ab, kb, vb, p1, p2, ctx, action, line, cp, ign⟩ := s
  rcases h with h | h <;> (replace h : action = _ := h; subst h; rfl)

theorem step_space_skip (s : LState) (hg : s.ignoreSpaces = true)
    (h : s.action = .SECTION ∨ s.action = .INHERITANCE ∨ s.action = .ATTRIBUTE ∨
      s.action = .KEY ∨ s.action = .VALUE) :
    step ' ' s = { s with charPos := s.charPos + 1 } := by
  obtain ⟨doc, msgs, bp, sb, ib, ab, kb, vb, p1, p2, ctx, action, line, cp, ign⟩ := s
  replace hg : ign = true := hg
  subst hg
  rcases h with h | h | h | h | h <;> (replace h : action = _ := h; subst h; rfl)

theorem step_comma_VALUE (s : LState) (h : s.action = .VALUE) :
    step ',' s = { s with
      action := .VALUE_ARRAY, valueBuf := s.valueBuf ++ [','],
      charPos := s.charPos + 1 } := by
  obtain ⟨doc, msgs, bp, sb, ib, ab, kb, vb, p1, p2, ctx, action, line, cp, ign⟩ := s
  replace h : action = .VALUE := h
  subst h
  rfl

theorem step_comma_VARR (s : LState) (h : s.action = .VALUE_ARRAY) :
    step ',' s = { s with valueBuf := s.valueBuf ++ [','], charPos := s.charPos + 1 } := by
  obtain ⟨doc, msgs, bp, sb, ib, ab, kb, vb, p1, p2, ctx, action, line, cp, ign⟩ := s
  replace h : action = .VALUE_ARRAY := h
  subst h
  rfl

theorem pushInheritance_flush (s : LState) (n : Str) (hb : s.inheritBuf ≠ [])
    (hctx : s.ctx = some n) (hlk : (lookupS s.doc s.inheritBuf).isSome = true) :
    pushInheritance s =
      { s with
        doc := updateS s.doc n (fun sec =>
          { sec with inheritances := sec.inheritances ++ [s.inheritBuf] }),
        inheritBuf := [] } := by
  unfold pushInheritance
  rw [if_pos hb, hctx]
  rw [hlk]
  rfl

theorem pushAttribute_flush (s : LState) (n : Str) (hb : s.attrBuf ≠ [])
    (hctx : s.ctx = some n) :
    pushAttribute s =
      { s with
        doc := updateS s.doc n (fun sec =>
          { sec with attributes := sec.attributes ++ [s.attrBuf] }),
        attrBuf := [] } := by
  unfold pushAttribute
  rw [if_pos hb, hctx]

theorem step_comma_INH (s : LState) (h : s.action = .INHERITANCE) :
    step ',' s = bump (pushInheritance s) := by
  obtain ⟨doc, msgs, bp, sb, ib, ab, kb, vb, p1, p2, ctx, action, line, cp, ign⟩ := s
  replace h : action = .INHERITANCE := h
  subst h
  rfl

theorem step_comma_ATTR (s : LState) (h : s.action = .ATTRIBUTE) :
    step ',' s = bump (pushAttribute s) := by
  obtain ⟨doc, msgs, bp, sb, ib, ab, kb, vb, p1, p2, ctx, action, line, cp, ign⟩ := s
  replace h : action = .ATTRIBUTE := h
  subst h
  rfl

theorem step_colon_SECTION (s : LState) (h : s.action = .SECTION) :
    step ':' s = { s with action := .INHERITANCE, charPos := s.charPos + 1 } := by
  obtain ⟨doc, msgs, bp, sb, ib, ab, kb, vb, p1, p2, ctx, action, line, cp, ign⟩ := s
  replace h : action = .SECTION := h
  subst h
  rfl

theorem step_eq_SECTION (s : LState) (h : s.action = .SECTION) :
    step '=' s = { s with action := .ATTRIBUTE, charPos := s.charPos + 1 } := by
  obtain ⟨doc, msgs, bp, sb, ib, ab, kb, vb, p1, p2, ctx, action, line, cp, ign⟩ := s
  replace h : action = .SECTION := h
  subst h
  rfl

theorem step_eq_INH (s : LState) (h : s.action = .INHERITANCE) :
    step '=' s = bump { pushInheritance s with action := .ATTRIBUTE } := by
  obtain ⟨doc, msgs, bp, sb, ib, ab, kb, vb, p1, p2, ctx, action, line, cp, ign⟩ := s
  replace h : action = .INHERITANCE := h
  subst h
  rfl

theorem step_eq_KEY_fresh (s : LState) (n : Str) (sec : Section)
    (h : s.action = .KEY) (hctx : s.ctx = some n)
    (hdoc : lookupS s.doc n = some sec) (hk : lookupS sec.values s.keyBuf = none) :
    step '=' s = { s with
      doc := updateS s.doc n (fun sc => { sc with values := sc.values ++ [(s.keyBuf, [])] }),
      action := .VALUE, charPos := s.charPos + 1 } := by
  rw [step_eqchar]
  unfold eqCore
  obtain ⟨doc, msgs, bp, sb, ib, ab, kb, vb, p1, p2, ctx, action, line, cp, ign⟩ := s
  replace h : action = .KEY := h
  subst h
  replace hctx : ctx = some n := hctx
  subst hctx
  replace hdoc : lookupS doc n = some sec := hdoc
  replace hk : lookupS sec.values kb = none := hk
  simp only []
  rw [hdoc]
  simp only []
  rw [hk]
  rfl

theorem step_rbrack_new (s : LState) (h : s.action = .SECTION)
    (hnew : lookupS s.doc s.sectionBuf = none) :
    step ']' s = { s with
      doc := s.doc ++ [(s.sectionBuf, Section.mk [] [] [])],
      ctx := some s.sectionBuf, ignoreSpaces := true, charPos := s.charPos + 1 } := by
  rw [step_rbrack]
  unfold rbrackCore
  obtain ⟨doc, msgs, bp, sb, ib, ab, kb, vb, p1, p2, ctx, action, line, cp, ign⟩ := s
  replace h : action = .SECTION := h
  subst h
  simp only []
  rw [hnew]
  rfl

theorem step_lbrack_NL (s : LState) (h : s.action = .NEW_LINE) :
    step '[' s = { s with
      sectionBuf := [], ctx := none, action := .SECTION,
      charPos := s.charPos + 1, ignoreSpaces := false } := by
  obtain ⟨doc, msgs, bp, sb, ib, ab, kb, vb, p1, p2, ctx, action, line, cp, ign⟩ := s
  replace h : action = .NEW_LINE := h
  subst h
  rfl

theorem step_newline_NL (s : LState) (h : s.action = .NEW_LINE) :
    step '\n' s = { s with charPos := 1, line := s.line + 1, ignoreSpaces := true } := by
  obtain ⟨doc, msgs, bp, sb, ib, ab, kb, vb, p1, p2, ctx, action, line, cp, ign⟩ := s
  replace h : action = .NEW_LINE := h
  subst h
  rfl

theorem step_newline_SECTION (s : LState) (h : s.action = .SECTION) :
    step '\n' s = { s with
      action := .NEW_LINE, charPos := 1, line := s.line + 1,
      ignoreSpaces := true } := by
  obtain ⟨doc, msgs, bp, sb, ib, ab, kb, vb, p1, p2, ctx, action, line, cp, ign⟩ := s
  replace h : action = .SECTION := h
  subst h
  rfl

theorem step_newline_INH (s : LState) (h : s.action = .INHERITANCE) :
    step '\n' s = { pushInheritance s with
      action := .NEW_LINE, charPos := 1, line := s.line + 1, ignoreSpaces := true } := by
  rw [step_newline]
  unfold newlineCore
  obtain ⟨doc, msgs, bp, sb, ib, ab, kb, vb, p1, p2, ctx, action, line, cp, ign⟩ := s
  replace h : action = .INHERITANCE := h
  subst h
  simp only []
  unfold pushInheritance
  split
  · cases ctx with
    | none => rfl
    | some n =>
      simp only []
      by_cases hlk : (lookupS doc ib).isSome = true
      · rw [hlk]
        rfl
      · rw [Bool.not_eq_true] at hlk
        rw [hlk]
        rfl
  · rfl

theorem step_newline_ATTR (s : LState) (h : s.action = .ATTRIBUTE) :
    step '\n' s = { pushAttribute s with
      action := .NEW_LINE, charPos := 1, line := s.line + 1, ignoreSpaces := true } := by
  rw [step_newline]
  unfold newlineCore
  obtain ⟨doc, msgs, bp, sb, ib, ab, kb, vb, p1, p2, ctx, action, line, cp, ign⟩ := s
  replace h : action = .ATTRIBUTE := h
  subst h
  simp only []
  unfold pushAttribute
  split
  · cases ctx with
    | none => rfl
    | some n => rfl
  · rfl

theorem step_newline_commit (s : LState) (n : Str)
    (h : s.action = .VALUE ∨ s.action = .VALUE_ARRAY) (hctx : s.ctx = some n) :
    step '\n' s = { s with
      doc := updateS s.doc n (fun sc =>
        { sc with values := insertS sc.values s.keyBuf s.valueBuf }),
      keyBuf := [], valueBuf := [], action := .NEW_LINE, charPos := 1,
      line := s.line + 1, ignoreSpaces := true } := by
  obtain ⟨doc, msgs, bp, sb, ib, ab, kb, vb, p1, p2, ctx, action, line, cp, ign⟩ := s
  replace hctx : ctx = some n := hctx
  subst hctx
  rcases h with h | h <;> (replace h : action = _ := h; subst h; rfl)

/-! Accumulation lemmas: a run of default characters extends the buffer of
the current state and changes nothing else (except the character counter). -/

theorem runChars_cons_act (inc : IncT) (c : Char) (cs : List Char) (s : LState)
    (h1 : s.action ≠ .STRING_VALUE) (h2 : s.action ≠ .INCLUDE) :
    runChars inc (c :: cs) s = runChars inc cs (step c s) :=
  runChars_cons inc c cs s (fun hx => h1 hx.2) (fun hx => h2 hx.2)

theorem plainStr_cons (c : Char) (rest : Str) (h : plainStr (c :: rest) = true) :
    specialChar c = false ∧ plainStr rest = true := by
  simpa [plainStr, Bool.not_eq_true'] using h

theorem valueStr_cons (c : Char) (rest : Str) (h : valueStr (c :: rest) = true) :
    (specialChar c = false ∨ c = ',') ∧ valueStr rest = true := by
  simpa [valueStr, Bool.not_eq_true', decide_eq_true_eq] using h

theorem acc_SECTION (inc : IncT) (l : Str) :
    ∀ (tail : List Char) (s : LState), plainStr l = true → s.action = .SECTION →
      ∃ cp, runChars inc (l ++ tail) s =
        runChars inc tail { s with sectionBuf := s.sectionBuf ++ l, charPos := cp } := by
  induction l with
  | nil =>
    intro tail s _ _
    refine ⟨s.charPos, ?_⟩
    simp
  | cons c rest ih =>
    intro tail s hl h
    obtain ⟨hc, hrest⟩ := plainStr_cons c rest hl
    rw [List.cons_append, runChars_cons_act inc c _ s (by simp [h]) (by simp [h])]
    rw [step_plain_SECTION c s hc h]
    obtain ⟨cp, hcp⟩ := ih tail
      { s with sectionBuf := s.sectionBuf ++ [c], charPos := s.charPos + 1 } hrest h
    refine ⟨cp, ?_⟩
    rw [hcp, List.append_cons s.sectionBuf c rest]

theorem acc_INH (inc : IncT) (l : Str) :
    ∀ (tail : List Char) (s : LState), plainStr l = true → s.action = .INHERITANCE →
      ∃ cp, runChars inc (l ++ tail) s =
        runChars inc tail { s with inheritBuf := s.inheritBuf ++ l, charPos := cp } := by
  induction l with
  | nil =>
    intro tail s _ _
    refine ⟨s.charPos, ?_⟩
    simp
  | cons c rest ih =>
    intro tail s hl h
    obtain ⟨hc, hrest⟩ := plainStr_cons c rest hl
    rw [List.cons_append, runChars_cons_act inc c _ s (by simp [h]) (by simp [h])]
    rw [step_plain_INH c s hc h]
    obtain ⟨cp, hcp⟩ := ih tail
      { s with inheritBuf := s.inheritBuf ++ [c], charPos := s.charPos + 1 } hrest h
    refine ⟨cp, ?_⟩
    rw [hcp, List.append_cons s.inheritBuf c rest]

theorem acc_ATTR (inc : IncT) (l : Str) :
    ∀ (tail : List Char) (s : LState), plainStr l = true → s.action = .ATTRIBUTE →
      ∃ cp, runChars inc (l ++ tail) s =
        runChars inc tail { s with attrBuf := s.attrBuf ++ l, charPos := cp } := by
  induction l with
  | nil =>
    intro tail s _ _
    refine ⟨s.charPos, ?_⟩
    simp
  | cons c rest ih =>
    intro tail s hl h
    obtain ⟨hc, hrest⟩ := plainStr_cons c rest hl
    rw [List.cons_append, runChars_cons_act inc c _ s (by simp [h]) (by simp [h])]
    rw [step_plain_ATTR c s hc h]
    obtain ⟨cp, hcp⟩ := ih tail
      { s with attrBuf := s.attrBuf ++ [c], charPos := s.charPos + 1 } hrest h
    refine ⟨cp, ?_⟩
    rw [hcp, List.append_cons s.attrBuf c rest]

theorem acc_KEY (inc : IncT) (l : Str) :
    ∀ (tail : List Char) (s : LState), plainStr l = true → s.action = .KEY →
      ∃ cp, runChars inc (l ++ tail) s =
        runChars inc tail { s with keyBuf := s.keyBuf ++ l, charPos := cp } := by
  induction l with
  | nil =>
    intro tail s _ _
    refine ⟨s.charPos, ?_⟩
    simp
  | cons c rest ih =>
    intro tail s hl h
    obtain ⟨hc, hrest⟩ := plainStr_cons c rest hl
    rw [List.cons_append, runChars_cons_act inc c _ s (by simp [h]) (by simp [h])]
    rw [step_plain_KEY c s hc h]
    obtain ⟨cp, hcp⟩ := ih tail
      { s with keyBuf := s.keyBuf ++ [c], charPos := s.charPos + 1 } hrest h
    refine ⟨cp, ?_⟩
    rw [hcp, List.append_cons s.keyBuf c rest]

theorem acc_VALUE (inc : IncT) (l : Str) :
    ∀ (tail : List Char) (s : LState), valueStr l = true →
      (s.action = .VALUE ∨ s.action = .VALUE_ARRAY) →
      ∃ cp A, (A = ParseAction.VALUE ∨ A = ParseAction.VALUE_ARRAY) ∧
        runChars inc (l ++ tail) s =
          runChars inc tail { s with
            valueBuf := s.valueBuf ++ l, action := A, charPos := cp } := by
  induction l with
  | nil =>
    intro tail s _ h
    refine ⟨s.charPos, s.action, h, ?_⟩
    simp
  | cons c rest ih =>
    intro tail s hl h
    obtain ⟨hc, hrest⟩ := valueStr_cons c rest hl
    have ha1 : s.action ≠ .STRING_VALUE := by rcases h with h | h <;> simp [h]
    have ha2 : s.action ≠ .INCLUDE := by rcases h with h | h <;> simp [h]
    rw [List.cons_append, runChars_cons_act inc c _ s ha1 ha2]
    rcases hc with hc | rfl
    · rw [step_plain_VALUE c s hc h]
      obtain ⟨cp, A, hA, hcp⟩ := ih tail
        { s with valueBuf := s.valueBuf ++ [c], charPos := s.charPos + 1 } hrest h
      refine ⟨cp, A, hA, ?_⟩
      rw [hcp, List.append_cons s.valueBuf c rest]
    · rcases h with h | h
      · rw [step_comma_VALUE s h]
        obtain ⟨cp, A, hA, hcp⟩ := ih tail
          { s with
            action := .VALUE_ARRAY, valueBuf := s.valueBuf ++ [','],
            charPos := s.charPos + 1 }
          hrest (Or.inr rfl)
        refine ⟨cp, A, hA, ?_⟩
        rw [hcp, List.append_cons s.valueBuf ',' rest]
      · rw [step_comma_VARR s h]
        obtain ⟨cp, A, hA, hcp⟩ := ih tail
          { s with valueBuf := s.valueBuf ++ [','], charPos := s.charPos + 1 } hrest
          (Or.inr h)
        refine ⟨cp, A, hA, ?_⟩
        rw [hcp, List.append_cons s.valueBuf ',' rest]

/-! Composition lemmas for in-place section updates. -/

theorem updateS_congr_at {α : Type} (l : List (Str × α)) (k : Str) (v : α) (f g : α → α)
    (hl : lookupS l k = some v) (h : f v = g v) : updateS l k f = updateS l k g := by
  induction l with
  | nil => rfl
  | cons p rest ih =>
    obtain ⟨a, b⟩ := p
    by_cases hak : a = k
    · simp only [lookupS, if_pos hak] at hl
      obtain rfl : b = v := Option.some.inj hl
      simp [updateS, hak, h]
    · simp only [lookupS, if_neg hak] at hl
      simp [updateS, hak, ih hl]

theorem not_mem_of_lookupS_none {α : Type} (l : List (Str × α)) (k : Str)
    (h : lookupS l k = none) : k ∉ l.map Prod.fst := by
  intro hm
  have h2 := lookupS_isSome_of_mem l k hm
  rw [h] at h2
  simp at h2

theorem lookupS_append_self {α : Type} (l : List (Str × α)) (k : Str) (x : α)
    (h : lookupS l k = none) : lookupS (l ++ [(k, x)]) k = some x := by
  rw [lookupS_append, h]
  simp [lookupS, Option.or]

theorem lookupS_append_single_none {α : Type} (vals : List (Str × α)) (k0 k : Str)
    (x : α) (h1 : lookupS vals k = none) (h2 : ¬ k = k0) :
    lookupS (vals ++ [(k0, x)]) k = none := by
  rw [lookupS_append, h1]
  have h3 : ¬ k0 = k := fun he => h2 he.symm
  simp [lookupS, h3, Option.or]

theorem nodupKeys_cons {α : Type} (k : Str) (v : α) (rest : List (Str × α))
    (h : nodupKeys ((k, v) :: rest) = true) :
    lookupS rest k = none ∧ nodupKeys rest = true := by
  simp only [nodupKeys, Bool.and_eq_true, Bool.not_eq_true'] at h
  exact ⟨Option.not_isSome_iff_eq_none.1 (by simp [h.1]), h.2⟩

theorem updateS_inh_comp (doc : Doc) (n : Str) (i : Str) (is : List Str) :
    updateS (updateS doc n (fun sec =>
        { sec with inheritances := sec.inheritances ++ [i] })) n
      (fun sec => { sec with inheritances := sec.inheritances ++ is }) =
    updateS doc n (fun sec => { sec with inheritances := sec.inheritances ++ (i :: is) }) := by
  rw [updateS_updateS]
  refine updateS_congr _ _ _ _ (fun v => ?_)
  rw [List.append_cons v.inheritances i is]

theorem updateS_attr_comp (doc : Doc) (n : Str) (a : Str) (as : List Str) :
    updateS (updateS doc n (fun sec =>
        { sec with attributes := sec.attributes ++ [a] })) n
      (fun sec => { sec with attributes := sec.attributes ++ as }) =
    updateS doc n (fun sec => { sec with attributes := sec.attributes ++ (a :: as) }) := by
  rw [updateS_updateS]
  refine updateS_congr _ _ _ _ (fun v => ?_)
  rw [List.append_cons v.attributes a as]

theorem updateS_vals_comp (doc : Doc) (n : Str) (p : Str × Str) (ps : List (Str × Str)) :
    updateS (updateS doc n (fun sec => { sec with values := sec.values ++ [p] })) n
      (fun sec => { sec with values := sec.values ++ ps }) =
    updateS doc n (fun sec => { sec with values := sec.values ++ (p :: ps) }) := by
  rw [updateS_updateS]
  refine updateS_congr _ _ _ _ (fun v => ?_)
  rw [List.append_cons v.values p ps]

theorem updateS_emplace_commit (doc : Doc) (n k v : Str) (sec : Section)
    (hdoc : lookupS doc n = some sec) (hfresh : lookupS sec.values k = none) :
    updateS (updateS doc n (fun sc => { sc with values := sc.values ++ [(k, [])] })) n
      (fun sc => { sc with values := insertS sc.values k v }) =
    updateS doc n (fun sc => { sc with values := sc.values ++ [(k, v)] }) := by
  rw [updateS_updateS]
  refine updateS_congr_at _ _ sec _ _ hdoc ?_
  simp only []
  rw [insertS_append_fresh sec.values k [] v hfresh]

/-! The inheritance and attribute lists of a section header. -/

theorem inh_list_nl (inc : IncT) (is : List Str) :
    ∀ (tail : List Char) (s : LState) (n : Str),
      s.action = .INHERITANCE → s.inheritBuf = [] → s.ctx = some n →
      s.ignoreSpaces = true →
      (∀ i ∈ is, i ≠ [] ∧ plainStr i = true ∧ i ∈ s.doc.map Prod.fst) →
      is ≠ [] →
      ∃ cp, runChars inc ((joinSep (str ", ") is ++ ['\n']) ++ tail) s =
        runChars inc tail { s with
          doc := updateS s.doc n (fun sec =>
            { sec with inheritances := sec.inheritances ++ is }),
          inheritBuf := [], action := .NEW_LINE, charPos := cp,
          line := s.line + 1, ignoreSpaces := true } := by
  induction is with
  | nil => intro _ _ _ _ _ _ _ _ hne; exact absurd rfl hne
  | cons i rest ih =>
    intro tail s n haction hbuf hctx hign hmem _
    obtain ⟨hi1, hi2, hi3⟩ := hmem i (List.mem_cons_self i rest)
    cases rest with
    | nil =>
      have hjs : joinSep (str ", ") [i] = i := rfl
      rw [hjs, List.append_assoc]
      obtain ⟨cp1, h1⟩ := acc_INH inc i (['\n'] ++ tail) s hi2 haction
      rw [h1, hbuf, List.nil_append]
      have ha1 : ({ s with inheritBuf := i, charPos := cp1 } : LState).action =
        .INHERITANCE := haction
      rw [show (['\n'] ++ tail : List Char) = '\n' :: tail from rfl]
      rw [runChars_cons_act inc '\n' tail _ (by simp [haction]) (by simp [haction])]
      rw [step_newline_INH _ ha1]
      rw [pushInheritance_flush { s with inheritBuf := i, charPos := cp1 } n hi1 hctx
        (lookupS_isSome_of_mem s.doc i hi3)]
      exact ⟨1, rfl⟩
    | cons j rest2 =>
      have hjs : joinSep (str ", ") (i :: j :: rest2) =
        i ++ str ", " ++ joinSep (str ", ") (j :: rest2) := rfl
      have hjs2 : joinSep (str ", ") (i :: j :: rest2) =
          i ++ (',' :: ' ' :: joinSep (str ", ") (j :: rest2)) := by
        rw [hjs, List.append_assoc]
        rfl
      rw [hjs2]
      simp only [List.append_assoc, List.cons_append, List.nil_append]
      obtain ⟨cp1, h1⟩ :=
        acc_INH inc i (',' :: ' ' :: (joinSep (str ", ") (j :: rest2) ++ '\n' :: tail)) s
          hi2 haction
      rw [h1, hbuf, List.nil_append]
      have ha1 : ({ s with inheritBuf := i, charPos := cp1 } : LState).action =
        .INHERITANCE := haction
      rw [runChars_cons_act inc ',' _ _ (by simp [haction]) (by simp [haction])]
      rw [step_comma_INH _ ha1]
      rw [pushInheritance_flush { s with inheritBuf := i, charPos := cp1 } n hi1 hctx
        (lookupS_isSome_of_mem s.doc i hi3)]
      rw [runChars_cons_act inc ' ' _ _ (by simp [bump, haction]) (by simp [bump, haction])]
      rw [step_space_skip _ (by exact hign) (Or.inr (Or.inl (by exact haction)))]
      rw [List.append_cons (joinSep (str ", ") (j :: rest2)) '\n' tail]
      have hmem2 : ∀ i2 ∈ j :: rest2, i2 ≠ [] ∧ plainStr i2 = true ∧
          i2 ∈ (({ s with
            doc := updateS s.doc n (fun sec =>
              { sec with inheritances := sec.inheritances ++ [i] }),
            inheritBuf := [], charPos := cp1 + 1 + 1 } : LState)).doc.map Prod.fst := by
        intro i2 hi2mem
        obtain ⟨hj1, hj2, hj3⟩ := hmem i2 (List.mem_cons_of_mem i hi2mem)
        refine ⟨hj1, hj2, ?_⟩
        show i2 ∈ (updateS s.doc n _).map Prod.fst
        rw [updateS_map_fst]
        exact hj3
      obtain ⟨cp2, h2⟩ := ih tail { s with
          doc := updateS s.doc n (fun sec =>
            { sec with inheritances := sec.inheritances ++ [i] }),
          inheritBuf := [], charPos := cp1 + 1 + 1 } n (by exact haction) rfl
        (by exact hctx) (by exact hign) hmem2 (by simp)
      have h3 : ({ s with
            doc := updateS (updateS s.doc n (fun sec =>
                { sec with inheritances := sec.inheritances ++ [i] })) n
              (fun sec => { sec with inheritances := sec.inheritances ++ (j :: rest2) }),
            inheritBuf := [], action := ParseAction.NEW_LINE, charPos := cp2,
            line := s.line + 1, ignoreSpaces := true } : LState) =
          { s with
            doc := updateS s.doc n (fun sec =>
              { sec with inheritances := sec.inheritances ++ (i :: j :: rest2) }),
            inheritBuf := [], action := ParseAction.NEW_LINE, charPos := cp2,
            line := s.line + 1, ignoreSpaces := true } := by
          rw [updateS_inh_comp]
      exact ⟨cp2, h2.trans (congrArg (runChars inc tail) h3)⟩

theorem inh_list_eq (inc : IncT) (is : List Str) :
    ∀ (tail : List Char) (s : LState) (n : Str),
      s.action = .INHERITANCE → s.inheritBuf = [] → s.ctx = some n →
      s.ignoreSpaces = true →
      (∀ i ∈ is, i ≠ [] ∧ plainStr i = true ∧ i ∈ s.doc.map Prod.fst) →
      is ≠ [] →
      ∃ cp, runChars inc ((joinSep (str ", ") is ++ [' ', '=']) ++ tail) s =
        runChars inc tail { s with
          doc := updateS s.doc n (fun sec =>
            { sec with inheritances := sec.inheritances ++ is }),
          inheritBuf := [], action := .ATTRIBUTE, charPos := cp } := by
  induction is with
  | nil => intro _ _ _ _ _ _ _ _ hne; exact absurd rfl hne
  | cons i rest ih =>
    intro tail s n haction hbuf hctx hign hmem _
    obtain ⟨hi1, hi2, hi3⟩ := hmem i (List.mem_cons_self i rest)
    cases rest with
    | nil =>
      have hjs : joinSep (str ", ") [i] = i := rfl
      rw [hjs, List.append_assoc]
      simp only [List.cons_append, List.nil_append]
      obtain ⟨cp1, h1⟩ := acc_INH inc i (' ' :: '=' :: tail) s hi2 haction
      rw [h1, hbuf, List.nil_append]
      have ha1 : ({ s with inheritBuf := i, charPos := cp1 } : LState).action =
        .INHERITANCE := haction
      rw [runChars_cons_act inc ' ' _ _ (by simp [haction]) (by simp [haction])]
      rw [step_space_skip _ (by exact hign) (Or.inr (Or.inl (by exact haction)))]
      rw [runChars_cons_act inc '=' _ _ (by simp [haction]) (by simp [haction])]
      rw [step_eq_INH _ (by exact haction)]
      rw [pushInheritance_flush { s with inheritBuf := i, charPos := cp1 + 1 } n hi1 hctx
        (lookupS_isSome_of_mem s.doc i hi3)]
      exact ⟨cp1 + 1 + 1, rfl⟩
    | cons j rest2 =>
      have hjs : joinSep (str ", ") (i :: j :: rest2) =
        i ++ str ", " ++ joinSep (str ", ") (j :: rest2) := rfl
      have hjs2 : joinSep (str ", ") (i :: j :: rest2) =
          i ++ (',' :: ' ' :: joinSep (str ", ") (j :: rest2)) := by
        rw [hjs, List.append_assoc]
        rfl
      rw [hjs2]
      simp only [List.append_assoc, List.cons_append, List.nil_append]
      obtain ⟨cp1, h1⟩ :=
        acc_INH inc i
          (',' :: ' ' :: (joinSep (str ", ") (j :: rest2) ++ ' ' :: '=' :: tail)) s
          hi2 haction
      rw [h1, hbuf, List.nil_append]
      have ha1 : ({ s with inheritBuf := i, charPos := cp1 } : LState).action =
        .INHERITANCE := haction
      rw [runChars_cons_act inc ',' _ _ (by simp [haction]) (by simp [haction])]
      rw [step_comma_INH _ ha1]
      rw [pushInheritance_flush { s with inheritBuf := i, charPos := cp1 } n hi1 hctx
        (lookupS_isSome_of_mem s.doc i hi3)]
      rw [runChars_cons_act inc ' ' _ _ (by simp [bump, haction]) (by simp [bump, haction])]
      rw [step_space_skip _ (by exact hign) (Or.inr (Or.inl (by exact haction)))]
      rw [show (joinSep (str ", ") (j :: rest2) ++ ' ' :: '=' :: tail : List Char) =
        (joinSep (str ", ") (j :: rest2) ++ [' ', '=']) ++ tail from by
          rw [List.append_assoc]
          rfl]
      have hmem2 : ∀ i2 ∈ j :: rest2, i2 ≠ [] ∧ plainStr i2 = true ∧
          i2 ∈ (({ s with
            doc := updateS s.doc n (fun sec =>
              { sec with inheritances := sec.inheritances ++ [i] }),
            inheritBuf := [], charPos := cp1 + 1 + 1 } : LState)).doc.map Prod.fst := by
        intro i2 hi2mem
        obtain ⟨hj1, hj2, hj3⟩ := hmem i2 (List.mem_cons_of_mem i hi2mem)
        refine ⟨hj1, hj2, ?_⟩
        show i2 ∈ (updateS s.doc n _).map Prod.fst
        rw [updateS_map_fst]
        exact hj3
      obtain ⟨cp2, h2⟩ := ih tail { s with
          doc := updateS s.doc n (fun sec =>
            { sec with inheritances := sec.inheritances ++ [i] }),
          inheritBuf := [], charPos := cp1 + 1 + 1 } n (by exact haction) rfl
        (by exact hctx) (by exact hign) hmem2 (by simp)
      have h3 : ({ s with
          doc := updateS (updateS s.doc n (fun sec =>
              { sec with inheritances := sec.inheritances ++ [i] })) n
            (fun sec => { sec with inheritances := sec.inheritances ++ (j :: rest2) }),
          inheritBuf := [], action := ParseAction.ATTRIBUTE, charPos := cp2 } : LState) =
        { s with
          doc := updateS s.doc n (fun sec =>
            { sec with inheritances := sec.inheritances ++ (i :: j :: rest2) }),
          inheritBuf := [], action := ParseAction.ATTRIBUTE, charPos := cp2 } := by
        rw [updateS_inh_comp]
      exact ⟨cp2, h2.trans (congrArg (runChars inc tail) h3)⟩

theorem attr_list_nl (inc : IncT) (as : List Str) :
    ∀ (tail : List Char) (s : LState) (n : Str),
      s.action = .ATTRIBUTE → s.attrBuf = [] → s.ctx = some n →
      s.ignoreSpaces = true →
      (∀ a ∈ as, a ≠ [] ∧ plainStr a = true) →
      as ≠ [] →
      ∃ cp, runChars inc ((joinSep (str ", ") as ++ ['\n']) ++ tail) s =
        runChars inc tail { s with
          doc := updateS s.doc n (fun sec =>
            { sec with attributes := sec.attributes ++ as }),
          attrBuf := [], action := .NEW_LINE, charPos := cp,
          line := s.line + 1, ignoreSpaces := true } := by
  induction as with
  | nil => intro _ _ _ _ _ _ _ _ hne; exact absurd rfl hne
  | cons a rest ih =>
    intro tail s n haction hbuf hctx hign hmem _
    obtain ⟨ha1, ha2⟩ := hmem a (List.mem_cons_self a rest)
    cases rest with
    | nil =>
      have hjs : joinSep (str ", ") [a] = a := rfl
      rw [hjs, List.append_assoc]
      obtain ⟨cp1, h1⟩ := acc_ATTR inc a (['\n'] ++ tail) s ha2 haction
      rw [h1, hbuf, List.nil_append]
      have hax : ({ s with attrBuf := a, charPos := cp1 } : LState).action =
        .ATTRIBUTE := haction
      rw [show (['\n'] ++ tail : List Char) = '\n' :: tail from rfl]
      rw [runChars_cons_act inc '\n' tail _ (by simp [haction]) (by simp [haction])]
      rw [step_newline_ATTR _ hax]
      rw [pushAttribute_flush { s with attrBuf := a, charPos := cp1 } n ha1 hctx]
      exact ⟨1, rfl⟩
    | cons b rest2 =>
      have hjs : joinSep (str ", ") (a :: b :: rest2) =
        a ++ str ", " ++ joinSep (str ", ") (b :: rest2) := rfl
      have hjs2 : joinSep (str ", ") (a :: b :: rest2) =
          a ++ (',' :: ' ' :: joinSep (str ", ") (b :: rest2)) := by
        rw [hjs, List.append_assoc]
        rfl
      rw [hjs2]
      simp only [List.append_assoc, List.cons_append, List.nil_append]
      obtain ⟨cp1, h1⟩ :=
        acc_ATTR inc a (',' :: ' ' :: (joinSep (str ", ") (b :: rest2) ++ '\n' :: tail)) s
          ha2 haction
      rw [h1, hbuf, List.nil_append]
      have hax : ({ s with attrBuf := a, charPos := cp1 } : LState).action =
        .ATTRIBUTE := haction
      rw [runChars_cons_act inc ',' _ _ (by simp [haction]) (by simp [haction])]
      rw [step_comma_ATTR _ hax]
      rw [pushAttribute_flush { s with attrBuf := a, charPos := cp1 } n ha1 hctx]
      rw [runChars_cons_act inc ' ' _ _ (by simp [bump, haction]) (by simp [bump, haction])]
      rw [step_space_skip _ (by exact hign) (Or.inr (Or.inr (Or.inl (by exact haction))))]
      rw [List.append_cons (joinSep (str ", ") (b :: rest2)) '\n' tail]
      obtain ⟨cp2, h2⟩ := ih tail { s with
          doc := updateS s.doc n (fun sec =>
            { sec with attributes := sec.attributes ++ [a] }),
          attrBuf := [], charPos := cp1 + 1 + 1 } n (by exact haction) rfl
        (by exact hctx) (by exact hign)
        (fun a2 h2m => hmem a2 (List.mem_cons_of_mem a h2m)) (by simp)
      have h3 : ({ s with
          doc := updateS (updateS s.doc n (fun sec =>
              { sec with attributes := sec.attributes ++ [a] })) n
            (fun sec => { sec with attributes := sec.attributes ++ (b :: rest2) }),
          attrBuf := [], action := ParseAction.NEW_LINE, charPos := cp2,
          line := s.line + 1, ignoreSpaces := true } : LState) =
        { s with
          doc := updateS s.doc n (fun sec =>
            { sec with attributes := sec.attributes ++ (a :: b :: rest2) }),
          attrBuf := [], action := ParseAction.NEW_LINE, charPos := cp2,
          line := s.line + 1, ignoreSpaces := true } := by
        rw [updateS_attr_comp]
      exact ⟨cp2, h2.trans (congrArg (runChars inc tail) h3)⟩

theorem updateS_id {α : Type} (l : List (Str × α)) (k : Str) :
    updateS l k (fun v => v) = l := by
  induction l with
  | nil => rfl
  | cons p rest ih =>
    obtain ⟨a, b⟩ := p
    by_cases hak : a = k <;> simp [updateS, hak, ih]

/-! One `key = value` line, and the whole block of value lines. -/

theorem value_line (inc : IncT) (k v : Str) (tail : List Char) (doc : Doc)
    (msgs : List Str) (bp sb n : Str) (sec : Section) (cp ln : Nat)
    (hk1 : k ≠ []) (hk2 : plainStr k = true) (hv : valueStr v = true)
    (hdoc : lookupS doc n = some sec) (hfresh : lookupS sec.values k = none) :
    runChars inc ((k ++ str " = " ++ v ++ str "\n") ++ tail)
        (nlState doc msgs bp sb (some n) cp ln) =
      runChars inc tail
        (nlState (updateS doc n (fun sc => { sc with values := sc.values ++ [(k, v)] }))
          msgs bp sb (some n) 1 (ln + 1)) := by
  cases k with
  | nil => exact absurd rfl hk1
  | cons c0 k' =>
    obtain ⟨hc0, hk'⟩ := plainStr_cons c0 k' hk2
    rw [show str " = " = [' ', '=', ' '] from rfl, show str "\n" = ['\n'] from rfl]
    simp only [List.append_assoc, List.cons_append, List.nil_append]
    obtain ⟨cp1, h1⟩ := acc_KEY inc k' (' ' :: '=' :: ' ' :: (v ++ '\n' :: tail))
      ⟨doc, msgs, bp, sb, [], [], [c0], [], [], [], some n, .KEY, ln, cp + 1, true⟩ hk' rfl
    obtain ⟨cp2, A, hA, h2⟩ := acc_VALUE inc v ('\n' :: tail)
      ⟨updateS doc n (fun sc => { sc with values := sc.values ++ [(c0 :: k', [])] }),
        msgs, bp, sb, [], [], [c0] ++ k', [], [], [], some n, .VALUE, ln,
        cp1 + 1 + 1 + 1, true⟩ hv (Or.inl rfl)
    have hfresh2 : lookupS sec.values ([c0] ++ k') = none := hfresh
    have hA1 : ¬ A = ParseAction.STRING_VALUE := by
      rcases hA with h | h <;> simp [h]
    have hA2 : ¬ A = ParseAction.INCLUDE := by
      rcases hA with h | h <;> simp [h]
    calc
      runChars inc (c0 :: (k' ++ (' ' :: '=' :: ' ' :: (v ++ '\n' :: tail))))
          (nlState doc msgs bp sb (some n) cp ln)
        = runChars inc (k' ++ (' ' :: '=' :: ' ' :: (v ++ '\n' :: tail)))
            (step c0 (nlState doc msgs bp sb (some n) cp ln)) :=
          runChars_cons_act inc c0 _ _ (by simp [nlState]) (by simp [nlState])
      _ = runChars inc (k' ++ (' ' :: '=' :: ' ' :: (v ++ '\n' :: tail)))
            ⟨doc, msgs, bp, sb, [], [], [c0], [], [], [], some n, .KEY, ln,
              cp + 1, true⟩ := by
          rw [step_plain_NL c0 _ hc0 rfl]; rfl
      _ = runChars inc (' ' :: '=' :: ' ' :: (v ++ '\n' :: tail))
            ⟨doc, msgs, bp, sb, [], [], [c0] ++ k', [], [], [], some n, .KEY, ln,
              cp1, true⟩ := h1
      _ = runChars inc ('=' :: ' ' :: (v ++ '\n' :: tail))
            ⟨doc, msgs, bp, sb, [], [], [c0] ++ k', [], [], [], some n, .KEY, ln,
              cp1 + 1, true⟩ :=
          runChars_cons_act inc ' ' _ _ (by simp) (by simp)
      _ = runChars inc (' ' :: (v ++ '\n' :: tail))
            (step '=' (⟨doc, msgs, bp, sb, [], [], [c0] ++ k', [], [], [], some n, .KEY,
              ln, cp1 + 1, true⟩ : LState)) :=
          runChars_cons_act inc '=' _ _ (by simp) (by simp)
      _ = runChars inc (' ' :: (v ++ '\n' :: tail))
            ⟨updateS doc n (fun sc => { sc with values := sc.values ++ [(c0 :: k', [])] }),
              msgs, bp, sb, [], [], [c0] ++ k', [], [], [], some n, .VALUE, ln,
              cp1 + 1 + 1, true⟩ := by
          rw [step_eq_KEY_fresh _ n sec rfl rfl hdoc hfresh2]; rfl
      _ = runChars inc (v ++ '\n' :: tail)
            ⟨updateS doc n (fun sc => { sc with values := sc.values ++ [(c0 :: k', [])] }),
              msgs, bp, sb, [], [], [c0] ++ k', [], [], [], some n, .VALUE, ln,
              cp1 + 1 + 1 + 1, true⟩ :=
          runChars_cons_act inc ' ' _ _ (by simp) (by simp)
      _ = runChars inc ('\n' :: tail)
            ⟨updateS doc n (fun sc => { sc with values := sc.values ++ [(c0 :: k', [])] }),
              msgs, bp, sb, [], [], [c0] ++ k', [] ++ v, [], [], some n, A, ln,
              cp2, true⟩ := h2
      _ = runChars inc tail
            (step '\n' ⟨updateS doc n (fun sc =>
                { sc with values := sc.values ++ [(c0 :: k', [])] }),
              msgs, bp, sb, [], [], [c0] ++ k', [] ++ v, [], [], some n, A, ln,
              cp2, true⟩) :=
          runChars_cons_act inc '\n' _ _ (by simp [hA1]) (by simp [hA2])
      _ = runChars inc tail
            ⟨updateS (updateS doc n (fun sc =>
                { sc with values := sc.values ++ [(c0 :: k', [])] })) n
              (fun sc => { sc with values := insertS sc.values ([c0] ++ k') ([] ++ v) }),
              msgs, bp, sb, [], [], [], [], [], [], some n, .NEW_LINE, ln + 1,
              1, true⟩ := by
          rw [step_newline_commit _ n (by exact hA) rfl]
      _ = runChars inc tail
            (nlState (updateS doc n (fun sc =>
                { sc with values := sc.values ++ [(c0 :: k', v)] }))
              msgs bp sb (some n) 1 (ln + 1)) := by
          refine congrArg (runChars inc tail) ?_
          show (⟨updateS (updateS doc n (fun sc =>
              { sc with values := sc.values ++ [(c0 :: k', [])] })) n
            (fun sc => { sc with values := insertS sc.values (c0 :: k') v }),
            msgs, bp, sb, [], [], [], [], [], [], some n, .NEW_LINE, ln + 1,
            1, true⟩ : LState) = _
          rw [updateS_emplace_commit doc n (c0 :: k') v sec hdoc hfresh]
          rfl

theorem value_lines (inc : IncT) (kvs : List (Str × Str)) :
    ∀ (tail : List Char) (doc : Doc) (msgs : List Str) (bp sb n : Str) (sec : Section)
      (cp ln : Nat),
      lookupS doc n = some sec →
      (∀ p ∈ kvs, lookupS sec.values p.1 = none) →
      nodupKeys kvs = true →
      (∀ p ∈ kvs, p.1 ≠ [] ∧ plainStr p.1 = true ∧ valueStr p.2 = true) →
      ∃ cp', runChars inc
          ((kvs.map (fun p => p.1 ++ str " = " ++ p.2 ++ str "\n")).flatten ++ tail)
          (nlState doc msgs bp sb (some n) cp ln) =
        runChars inc tail
          (nlState (updateS doc n (fun sc => { sc with values := sc.values ++ kvs }))
            msgs bp sb (some n) cp' (ln + kvs.length)) := by
  induction kvs with
  | nil =>
    intro tail doc msgs bp sb n sec cp ln _ _ _ _
    refine ⟨cp, ?_⟩
    have h3 : updateS doc n (fun sc => { sc with values := sc.values ++ [] }) = doc := by
      have e : (fun sc : Section => { sc with values := sc.values ++ [] }) =
          (fun sc : Section => sc) := by
        funext sc
        simp
      rw [e, updateS_id]
    simp only [List.map_nil, List.flatten_nil, List.nil_append, List.length_nil,
      Nat.add_zero, h3]
  | cons p rest ih =>
    intro tail doc msgs bp sb n sec cp ln hdoc hfresh hnodup hwf
    obtain ⟨k, v⟩ := p
    obtain ⟨hw1, hw2, hw3⟩ := hwf (k, v) (List.mem_cons_self _ _)
    obtain ⟨hnd1, hnd2⟩ := nodupKeys_cons k v rest hnodup
    rw [List.map_cons, List.flatten_cons, List.append_assoc]
    rw [value_line inc k v _ doc msgs bp sb n sec cp ln hw1 hw2 hw3 hdoc
      (hfresh (k, v) (List.mem_cons_self _ _))]
    have hdoc2 : lookupS (updateS doc n (fun sc =>
        { sc with values := sc.values ++ [(k, v)] })) n =
        some { sec with values := sec.values ++ [(k, v)] } := by
      rw [lookupS_updateS]
      simp [hdoc]
    have hfresh2 : ∀ q ∈ rest,
        lookupS ({ sec with values := sec.values ++ [(k, v)] } : Section).values q.1 =
          none := by
      intro q hq
      show lookupS (sec.values ++ [(k, v)]) q.1 = none
      refine lookupS_append_single_none sec.values k q.1 v
        (hfresh q (List.mem_cons_of_mem _ hq)) ?_
      intro hqk
      have hq1 : q.1 ∈ rest.map Prod.fst := List.mem_map_of_mem Prod.fst hq
      rw [hqk] at hq1
      have := lookupS_isSome_of_mem rest k hq1
      rw [hnd1] at this
      simp at this
    obtain ⟨cp2, h2⟩ := ih tail
      (updateS doc n (fun sc => { sc with values := sc.values ++ [(k, v)] }))
      msgs bp sb n { sec with values := sec.values ++ [(k, v)] } 1 (ln + 1) hdoc2 hfresh2
      hnd2 (fun q hq => hwf q (List.mem_cons_of_mem _ hq))
    refine ⟨cp2, ?_⟩
    rw [h2]
    have e : ln + 1 + rest.length = ln + (rest.length + 1) := by omega
    have h3 : (nlState (updateS (updateS doc n (fun sc =>
        { sc with values := sc.values ++ [(k, v)] })) n (fun sc =>
        { sc with values := sc.values ++ rest })) msgs bp sb (some n) cp2
        (ln + 1 + rest.length)) =
      nlState (updateS doc n (fun sc => { sc with values := sc.values ++ ((k, v) :: rest) }))
        msgs bp sb (some n) cp2 (ln + (rest.length + 1)) := by
      rw [updateS_vals_comp, e]
    exact congrArg (runChars inc tail) h3

/-- A well-formed section header line `[n]` with optional ` : ` inheritance
list and ` = ` attribute list appends a fresh section holding exactly those
lists, sets the context to it and returns to the fresh-line state. -/
theorem header_line (inc : IncT) (n : Str) (is as : List Str) (tail : List Char)
    (doc : Doc) (msgs : List Str) (bp sb : Str) (ctx0 : Option Str) (cp ln : Nat)
    (hn2 : plainStr n = true) (hnew : lookupS doc n = none)
    (hinh : ∀ i ∈ is, i ≠ [] ∧ plainStr i = true ∧ (i = n ∨ i ∈ doc.map Prod.fst))
    (hattr : ∀ a ∈ as, a ≠ [] ∧ plainStr a = true) :
    ∃ cp', runChars inc ((str "[" ++ n ++ str "]" ++
        (if is ≠ [] then str " : " ++ joinSep (str ", ") is else []) ++
        (if as ≠ [] then str " = " ++ joinSep (str ", ") as else []) ++ str "\n") ++ tail)
        (nlState doc msgs bp sb ctx0 cp ln) =
      runChars inc tail
        (nlState (doc ++ [(n, Section.mk is as [])]) msgs bp n (some n) cp' (ln + 1)) := by
  by_cases hi : is = []
  · by_cases ha : as = []
    · subst hi
      subst ha
      rw [if_neg (fun h => h rfl)]
      rw [show str "[" = ['['] from rfl, show str "]" = [']'] from rfl,
        show str "\n" = ['\n'] from rfl]
      simp only [List.append_assoc, List.append_nil, List.cons_append, List.nil_append]
      obtain ⟨cp1, h1⟩ := acc_SECTION inc n (']' :: '\n' :: tail)
        (⟨doc, msgs, bp, [], [], [], [], [], [], [], none, .SECTION, ln, cp + 1,
          false⟩ : LState) hn2 rfl
      refine ⟨1, ?_⟩
      calc
        runChars inc ('[' :: (n ++ ']' :: '\n' :: tail)) (nlState doc msgs bp sb ctx0 cp ln)
          = runChars inc (n ++ ']' :: '\n' :: tail)
              (⟨doc, msgs, bp, [], [], [], [], [], [], [], none, .SECTION, ln, cp + 1,
                false⟩ : LState) :=
            runChars_cons_act inc '[' _ _ (by simp [nlState]) (by simp [nlState])
        _ = runChars inc (']' :: '\n' :: tail)
              (⟨doc, msgs, bp, n, [], [], [], [], [], [], none, .SECTION, ln, cp1,
                false⟩ : LState) := h1
        _ = runChars inc ('\n' :: tail)
              (step ']' (⟨doc, msgs, bp, n, [], [], [], [], [], [], none, .SECTION, ln, cp1,
                false⟩ : LState)) :=
            runChars_cons_act inc ']' _ _ (by simp) (by simp)
        _ = runChars inc ('\n' :: tail)
              (⟨doc ++ [(n, Section.mk [] [] [])], msgs, bp, n, [], [], [], [], [], [],
                some n, .SECTION, ln, cp1 + 1, true⟩ : LState) := by
            rw [step_rbrack_new (⟨doc, msgs, bp, n, [], [], [], [], [], [], none, .SECTION,
              ln, cp1, false⟩ : LState) rfl hnew]
        _ = runChars inc tail
              (nlState (doc ++ [(n, Section.mk [] [] [])]) msgs bp n (some n) 1 (ln + 1)) :=
            runChars_cons_act inc '\n' _ _ (by simp) (by simp)
    · subst hi
      rw [if_neg (fun h => h rfl), if_pos ha]
      rw [show str "[" = ['['] from rfl, show str "]" = [']'] from rfl,
        show str " = " = [' ', '=', ' '] from rfl, show str "\n" = ['\n'] from rfl]
      simp only [List.append_assoc, List.append_nil, List.cons_append, List.nil_append]
      obtain ⟨cp1, h1⟩ := acc_SECTION inc n
        (']' :: ' ' :: '=' :: ' ' :: (joinSep (str ", ") as ++ '\n' :: tail))
        (⟨doc, msgs, bp, [], [], [], [], [], [], [], none, .SECTION, ln, cp + 1,
          false⟩ : LState) hn2 rfl
      obtain ⟨cp2, h2⟩ := attr_list_nl inc as tail
        (⟨doc ++ [(n, Section.mk [] [] [])], msgs, bp, n, [], [], [], [], [], [],
          some n, .ATTRIBUTE, ln, cp1 + 1 + 1 + 1 + 1, true⟩ : LState) n
        rfl rfl rfl rfl hattr ha
      rw [List.append_assoc] at h2
      have h3 : updateS (doc ++ [(n, Section.mk [] [] [])]) n
          (fun sec => { sec with attributes := sec.attributes ++ as }) =
          doc ++ [(n, Section.mk [] as [])] := by
        rw [updateS_append_last doc n (Section.mk [] [] []) _
          (not_mem_of_lookupS_none doc n hnew)]
        rfl
      refine ⟨cp2, ?_⟩
      calc
        runChars inc
            ('[' :: (n ++ ']' :: ' ' :: '=' :: ' ' :: (joinSep (str ", ") as ++ '\n' :: tail)))
            (nlState doc msgs bp sb ctx0 cp ln)
          = runChars inc (n ++ ']' :: ' ' :: '=' :: ' ' :: (joinSep (str ", ") as ++ '\n' :: tail))
              (⟨doc, msgs, bp, [], [], [], [], [], [], [], none, .SECTION, ln, cp + 1,
                false⟩ : LState) :=
            runChars_cons_act inc '[' _ _ (by simp [nlState]) (by simp [nlState])
        _ = runChars inc (']' :: ' ' :: '=' :: ' ' :: (joinSep (str ", ") as ++ '\n' :: tail))
              (⟨doc, msgs, bp, n, [], [], [], [], [], [], none, .SECTION, ln, cp1,
                false⟩ : LState) := h1
        _ = runChars inc (' ' :: '=' :: ' ' :: (joinSep (str ", ") as ++ '\n' :: tail))
              (step ']' (⟨doc, msgs, bp, n, [], [], [], [], [], [], none, .SECTION, ln, cp1,
                false⟩ : LState)) :=
            runChars_cons_act inc ']' _ _ (by simp) (by simp)
        _ = runChars inc (' ' :: '=' :: ' ' :: (joinSep (str ", ") as ++ '\n' :: tail))
              (⟨doc ++ [(n, Section.mk [] [] [])], msgs, bp, n, [], [], [], [], [], [],
                some n, .SECTION, ln, cp1 + 1, true⟩ : LState) := by
            rw [step_rbrack_new (⟨doc, msgs, bp, n, [], [], [], [], [], [], none, .SECTION,
              ln, cp1, false⟩ : LState) rfl hnew]
        _ = runChars inc ('=' :: ' ' :: (joinSep (str ", ") as ++ '\n' :: tail))
              (⟨doc ++ [(n, Section.mk [] [] [])], msgs, bp, n, [], [], [], [], [], [],
                some n, .SECTION, ln, cp1 + 1 + 1, true⟩ : LState) :=
            runChars_cons_act inc ' ' _ _ (by simp) (by simp)
        _ = runChars inc (' ' :: (joinSep (str ", ") as ++ '\n' :: tail))
              (⟨doc ++ [(n, Section.mk [] [] [])], msgs, bp, n, [], [], [], [], [], [],
                some n, .ATTRIBUTE, ln, cp1 + 1 + 1 + 1, true⟩ : LState) :=
            runChars_cons_act inc '=' _ _ (by simp) (by simp)
        _ = runChars inc (joinSep (str ", ") as ++ '\n' :: tail)
              (⟨doc ++ [(n, Section.mk [] [] [])], msgs, bp, n, [], [], [], [], [], [],
                some n, .ATTRIBUTE, ln, cp1 + 1 + 1 + 1 + 1, true⟩ : LState) :=
            runChars_cons_act inc ' ' _ _ (by simp) (by simp)
        _ = runChars inc tail
              (⟨updateS (doc ++ [(n, Section.mk [] [] [])]) n
                  (fun sec => { sec with attributes := sec.attributes ++ as }),
                msgs, bp, n, [], [], [], [], [], [], some n, .NEW_LINE, ln + 1, cp2,
                true⟩ : LState) := h2
        _ = runChars inc tail
              (nlState (doc ++ [(n, Section.mk [] as [])]) msgs bp n (some n) cp2 (ln + 1)) :=
            congrArg (fun d => runChars inc tail (nlState d msgs bp n (some n) cp2 (ln + 1))) h3
  · have hmem : ∀ i ∈ is, i ≠ [] ∧ plainStr i = true ∧
        i ∈ (doc ++ [(n, Section.mk [] [] [])]).map Prod.fst := by
      intro i him
      obtain ⟨a, b, c⟩ := hinh i him
      refine ⟨a, b, ?_⟩
      rw [List.map_append]
      rcases c with rfl | hc
      · exact List.mem_append.2 (Or.inr (by simp))
      · exact List.mem_append.2 (Or.inl hc)
    by_cases ha : as = []
    · subst ha
      rw [if_pos hi, if_neg (fun h => h rfl)]
      rw [show str "[" = ['['] from rfl, show str "]" = [']'] from rfl,
        show str " : " = [' ', ':', ' '] from rfl, show str "\n" = ['\n'] from rfl]
      simp only [List.append_assoc, List.append_nil, List.cons_append, List.nil_append]
      obtain ⟨cp1, h1⟩ := acc_SECTION inc n
        (']' :: ' ' :: ':' :: ' ' :: (joinSep (str ", ") is ++ '\n' :: tail))
        (⟨doc, msgs, bp, [], [], [], [], [], [], [], none, .SECTION, ln, cp + 1,
          false⟩ : LState) hn2 rfl
      obtain ⟨cp2, h2⟩ := inh_list_nl inc is tail
        (⟨doc ++ [(n, Section.mk [] [] [])], msgs, bp, n, [], [], [], [], [], [],
          some n, .INHERITANCE, ln, cp1 + 1 + 1 + 1 + 1, true⟩ : LState) n
        rfl rfl rfl rfl hmem hi
      rw [List.append_assoc] at h2
      have h3 : updateS (doc ++ [(n, Section.mk [] [] [])]) n
          (fun sec => { sec with inheritances := sec.inheritances ++ is }) =
          doc ++ [(n, Section.mk is [] [])] := by
        rw [updateS_append_last doc n (Section.mk [] [] []) _
          (not_mem_of_lookupS_none doc n hnew)]
        rfl
      refine ⟨cp2, ?_⟩
      calc
        runChars inc
            ('[' :: (n ++ ']' :: ' ' :: ':' :: ' ' :: (joinSep (str ", ") is ++ '\n' :: tail)))
            (nlState doc msgs bp sb ctx0 cp ln)
          = runChars inc (n ++ ']' :: ' ' :: ':' :: ' ' :: (joinSep (str ", ") is ++ '\n' :: tail))
              (⟨doc, msgs, bp, [], [], [], [], [], [], [], none, .SECTION, ln, cp + 1,
                false⟩ : LState) :=
            runChars_cons_act inc '[' _ _ (by simp [nlState]) (by simp [nlState])
        _ = runChars inc (']' :: ' ' :: ':' :: ' ' :: (joinSep (str ", ") is ++ '\n' :: tail))
              (⟨doc, msgs, bp, n, [], [], [], [], [], [], none, .SECTION, ln, cp1,
                false⟩ : LState) := h1
        _ = runChars inc (' ' :: ':' :: ' ' :: (joinSep (str ", ") is ++ '\n' :: tail))
              (step ']' (⟨doc, msgs, bp, n, [], [], [], [], [], [], none, .SECTION, ln, cp1,
                false⟩ : LState)) :=
            runChars_cons_act inc ']' _ _ (by simp) (by simp)
        _ = runChars inc (' ' :: ':' :: ' ' :: (joinSep (str ", ") is ++ '\n' :: tail))
              (⟨doc ++ [(n, Section.mk [] [] [])], msgs, bp, n, [], [], [], [], [], [],
                some n, .SECTION, ln, cp1 + 1, true⟩ : LState) := by
            rw [step_rbrack_new (⟨doc, msgs, bp, n, [], [], [], [], [], [], none, .SECTION,
              ln, cp1, false⟩ : LState) rfl hnew]
        _ = runChars inc (':' :: ' ' :: (joinSep (str ", ") is ++ '\n' :: tail))
              (⟨doc ++ [(n, Section.mk [] [] [])], msgs, bp, n, [], [], [], [], [], [],
                some n, .SECTION, ln, cp1 + 1 + 1, true⟩ : LState) :=
            runChars_cons_act inc ' ' _ _ (by simp) (by simp)
        _ = runChars inc (' ' :: (joinSep (str ", ") is ++ '\n' :: tail))
              (⟨doc ++ [(n, Section.mk [] [] [])], msgs, bp, n, [], [], [], [], [], [],
                some n, .INHERITANCE, ln, cp1 + 1 + 1 + 1, true⟩ : LState) :=
            runChars_cons_act inc ':' _ _ (by simp) (by simp)
        _ = runChars inc (joinSep (str ", ") is ++ '\n' :: tail)
              (⟨doc ++ [(n, Section.mk [] [] [])], msgs, bp, n, [], [], [], [], [], [],
                some n, .INHERITANCE, ln, cp1 + 1 + 1 + 1 + 1, true⟩ : LState) :=
            runChars_cons_act inc ' ' _ _ (by simp) (by simp)
        _ = runChars inc tail
              (⟨updateS (doc ++ [(n, Section.mk [] [] [])]) n
                  (fun sec => { sec with inheritances := sec.inheritances ++ is }),
                msgs, bp, n, [], [], [], [], [], [], some n, .NEW_LINE, ln + 1, cp2,
                true⟩ : LState) := h2
        _ = runChars inc tail
              (nlState (doc ++ [(n, Section.mk is [] [])]) msgs bp n (some n) cp2 (ln + 1)) :=
            congrArg (fun d => runChars inc tail (nlState d msgs bp n (some n) cp2 (ln + 1))) h3
    · rw [if_pos hi, if_pos ha]
      rw [show str "[" = ['['] from rfl, show str "]" = [']'] from rfl,
        show str " : " = [' ', ':', ' '] from rfl,
        show str " = " = [' ', '=', ' '] from rfl, show str "\n" = ['\n'] from rfl]
      simp only [List.append_assoc, List.append_nil, List.cons_append, List.nil_append]
      obtain ⟨cp1, h1⟩ := acc_SECTION inc n
        (']' :: ' ' :: ':' :: ' ' :: (joinSep (str ", ") is ++
          ' ' :: '=' :: ' ' :: (joinSep (str ", ") as ++ '\n' :: tail)))
        (⟨doc, msgs, bp, [], [], [], [], [], [], [], none, .SECTION, ln, cp + 1,
          false⟩ : LState) hn2 rfl
      obtain ⟨cp2, h2⟩ := inh_list_eq inc is (' ' :: (joinSep (str ", ") as ++ '\n' :: tail))
        (⟨doc ++ [(n, Section.mk [] [] [])], msgs, bp, n, [], [], [], [], [], [],
          some n, .INHERITANCE, ln, cp1 + 1 + 1 + 1 + 1, true⟩ : LState) n
        rfl rfl rfl rfl hmem hi
      rw [List.append_assoc] at h2
      have h3 : updateS (doc ++ [(n, Section.mk [] [] [])]) n
          (fun sec => { sec with inheritances := sec.inheritances ++ is }) =
          doc ++ [(n, Section.mk is [] [])] := by
        rw [updateS_append_last doc n (Section.mk [] [] []) _
          (not_mem_of_lookupS_none doc n hnew)]
        rfl
      obtain ⟨cp3, h4⟩ := attr_list_nl inc as tail
        (⟨doc ++ [(n, Section.mk is [] [])], msgs, bp, n, [], [], [], [], [], [],
          some n, .ATTRIBUTE, ln, cp2 + 1, true⟩ : LState) n
        rfl rfl rfl rfl hattr ha
      rw [List.append_assoc] at h4
      have h5 : updateS (doc ++ [(n, Section.mk is [] [])]) n
          (fun sec => { sec with attributes := sec.attributes ++ as }) =
          doc ++ [(n, Section.mk is as [])] := by
        rw [updateS_append_last doc n (Section.mk is [] []) _
          (not_mem_of_lookupS_none doc n hnew)]
        rfl
      refine ⟨cp3, ?_⟩
      calc
        runChars inc
            ('[' :: (n ++ ']' :: ' ' :: ':' :: ' ' :: (joinSep (str ", ") is ++
              ' ' :: '=' :: ' ' :: (joinSep (str ", ") as ++ '\n' :: tail))))
            (nlState doc msgs bp sb ctx0 cp ln)
          = runChars inc (n ++ ']' :: ' ' :: ':' :: ' ' :: (joinSep (str ", ") is ++
              ' ' :: '=' :: ' ' :: (joinSep (str ", ") as ++ '\n' :: tail)))
              (⟨doc, msgs, bp, [], [], [], [], [], [], [], none, .SECTION, ln, cp + 1,
                false⟩ : LState) :=
            runChars_cons_act inc '[' _ _ (by simp [nlState]) (by simp [nlState])
        _ = runChars inc (']' :: ' ' :: ':' :: ' ' :: (joinSep (str ", ") is ++
              ' ' :: '=' :: ' ' :: (joinSep (str ", ") as ++ '\n' :: tail)))
              (⟨doc, msgs, bp, n, [], [], [], [], [], [], none, .SECTION, ln, cp1,
                false⟩ : LState) := h1
        _ = runChars inc (' ' :: ':' :: ' ' :: (joinSep (str ", ") is ++
              ' ' :: '=' :: ' ' :: (joinSep (str ", ") as ++ '\n' :: tail)))
              (step ']' (⟨doc, msgs, bp, n, [], [], [], [], [], [], none, .SECTION, ln, cp1,
                false⟩ : LState)) :=
            runChars_cons_act inc ']' _ _ (by simp) (by simp)
        _ = runChars inc (' ' :: ':' :: ' ' :: (joinSep (str ", ") is ++
              ' ' :: '=' :: ' ' :: (joinSep (str ", ") as ++ '\n' :: tail)))
              (⟨doc ++ [(n, Section.mk [] [] [])], msgs, bp, n, [], [], [], [], [], [],
                some n, .SECTION, ln, cp1 + 1, true⟩ : LState) := by
            rw [step_rbrack_new (⟨doc, msgs, bp, n, [], [], [], [], [], [], none, .SECTION,
              ln, cp1, false⟩ : LState) rfl hnew]
        _ = runChars inc (':' :: ' ' :: (joinSep (str ", ") is ++
              ' ' :: '=' :: ' ' :: (joinSep (str ", ") as ++ '\n' :: tail)))
              (⟨doc ++ [(n, Section.mk [] [] [])], msgs, bp, n, [], [], [], [], [], [],
                some n, .SECTION, ln, cp1 + 1 + 1, true⟩ : LState) :=
            runChars_cons_act inc ' ' _ _ (by simp) (by simp)
        _ = runChars inc (' ' :: (joinSep (str ", ") is ++
              ' ' :: '=' :: ' ' :: (joinSep (str ", ") as ++ '\n' :: tail)))
              (⟨doc ++ [(n, Section.mk [] [] [])], msgs, bp, n, [], [], [], [], [], [],
                some n, .INHERITANCE, ln, cp1 + 1 + 1 + 1, true⟩ : LState) :=
            runChars_cons_act inc ':' _ _ (by simp) (by simp)
        _ = runChars inc (joinSep (str ", ") is ++
              ' ' :: '=' :: ' ' :: (joinSep (str ", ") as ++ '\n' :: tail))
              (⟨doc ++ [(n, Section.mk [] [] [])], msgs, bp, n, [], [], [], [], [], [],
                some n, .INHERITANCE, ln, cp1 + 1 + 1 + 1 + 1, true⟩ : LState) :=
            runChars_cons_act inc ' ' _ _ (by simp) (by simp)
        _ = runChars inc (' ' :: (joinSep (str ", ") as ++ '\n' :: tail))
              (⟨updateS (doc ++ [(n, Section.mk [] [] [])]) n
                  (fun sec => { sec with inheritances := sec.inheritances ++ is }),
                msgs, bp, n, [], [], [], [], [], [], some n, .ATTRIBUTE, ln, cp2,
                true⟩ : LState) := h2
        _ = runChars inc (' ' :: (joinSep (str ", ") as ++ '\n' :: tail))
              (⟨doc ++ [(n, Section.mk is [] [])],
                msgs, bp, n, [], [], [], [], [], [], some n, .ATTRIBUTE, ln, cp2,
                true⟩ : LState) :=
            congrArg (fun d => runChars inc (' ' :: (joinSep (str ", ") as ++ '\n' :: tail))
              (⟨d, msgs, bp, n, [], [], [], [], [], [], some n, .ATTRIBUTE, ln, cp2,
                true⟩ : LState)) h3
        _ = runChars inc (joinSep (str ", ") as ++ '\n' :: tail)
              (⟨doc ++ [(n, Section.mk is [] [])],
                msgs, bp, n, [], [], [], [], [], [], some n, .ATTRIBUTE, ln, cp2 + 1,
                true⟩ : LState) :=
            runChars_cons_act inc ' ' _ _ (by simp) (by simp)
        _ = runChars inc tail
              (⟨updateS (doc ++ [(n, Section.mk is [] [])]) n
                  (fun sec => { sec with attributes := sec.attributes ++ as }),
                msgs, bp, n, [], [], [], [], [], [], some n, .NEW_LINE, ln + 1, cp3,
                true⟩ : LState) := h4
        _ = runChars inc tail
              (nlState (doc ++ [(n, Section.mk is as [])]) msgs bp n (some n) cp3 (ln + 1)) :=
            congrArg (fun d => runChars inc tail (nlState d msgs bp n (some n) cp3 (ln + 1))) h5

/-- A whole `saveSection` block (header line, value lines, trailing blank
line) parsed from a fresh-line state appends exactly the saved section. -/
theorem section_block (inc : IncT) (n : Str) (sec : Section) (tail : List Char)
    (doc : Doc) (msgs : List Str) (bp sb : Str) (ctx0 : Option Str) (cp ln : Nat)
    (hn2 : plainStr n = true) (hnew : lookupS doc n = none)
    (hinh : ∀ i ∈ sec.inheritances, i ≠ [] ∧ plainStr i = true ∧
      (i = n ∨ i ∈ doc.map Prod.fst))
    (hattr : ∀ a ∈ sec.attributes, a ≠ [] ∧ plainStr a = true)
    (hvals : ∀ p ∈ sec.values, p.1 ≠ [] ∧ plainStr p.1 = true ∧ valueStr p.2 = true)
    (hnd : nodupKeys sec.values = true) :
    ∃ cp' ln', runChars inc (saveSection n sec ++ tail) (nlState doc msgs bp sb ctx0 cp ln) =
      runChars inc tail (nlState (doc ++ [(n, sec)]) msgs bp n (some n) cp' ln') := by
  obtain ⟨cp1, h1⟩ := header_line inc n sec.inheritances sec.attributes
    ((sec.values.map (fun p => p.1 ++ str " = " ++ p.2 ++ str "\n")).flatten ++
      (str "\n" ++ tail))
    doc msgs bp sb ctx0 cp ln hn2 hnew hinh hattr
  obtain ⟨cp2, h2⟩ := value_lines inc sec.values (str "\n" ++ tail)
    (doc ++ [(n, Section.mk sec.inheritances sec.attributes [])]) msgs bp n n
    (Section.mk sec.inheritances sec.attributes []) cp1 (ln + 1)
    (lookupS_append_self doc n _ hnew) (fun _ _ => rfl) hnd hvals
  have h3 : updateS (doc ++ [(n, Section.mk sec.inheritances sec.attributes [])]) n
      (fun sc => { sc with values := sc.values ++ sec.values }) = doc ++ [(n, sec)] := by
    rw [updateS_append_last doc n (Section.mk sec.inheritances sec.attributes []) _
      (not_mem_of_lookupS_none doc n hnew)]
    rfl
  refine ⟨1, ln + 1 + sec.values.length + 1, ?_⟩
  show runChars inc
      ((str "[" ++ n ++ str "]" ++
        (if sec.inheritances ≠ [] then str " : " ++ joinSep (str ", ") sec.inheritances else []) ++
        (if sec.attributes ≠ [] then str " = " ++ joinSep (str ", ") sec.attributes else []) ++
        str "\n" ++
        (sec.values.map (fun p => p.1 ++ str " = " ++ p.2 ++ str "\n")).flatten ++
        str "\n") ++ tail)
      (nlState doc msgs bp sb ctx0 cp ln) = _
  rw [List.append_assoc, List.append_assoc, h1, h2, h3]
  exact runChars_cons_act inc '\n' tail _ (by simp [nlState]) (by simp [nlState])

/-- `SaveableDoc` only inspects membership in the already-declared name list,
so any membership-equivalent name list accepts the same documents. -/
theorem saveableDoc_names (d : Doc) :
    ∀ (names1 names2 : List Str), (∀ x : Str, x ∈ names1 ↔ x ∈ names2) →
      SaveableDoc names1 d = true → SaveableDoc names2 d = true := by
  induction d with
  | nil => intro _ _ _ _; rfl
  | cons p rest ih =>
    obtain ⟨n, sec⟩ := p
    intro names1 names2 hiff hs
    simp only [SaveableDoc, Bool.and_eq_true] at hs ⊢
    obtain ⟨⟨⟨⟨⟨⟨⟨h1, h2⟩, h3⟩, h4⟩, h5⟩, h6⟩, h7⟩, h8⟩ := hs
    refine ⟨⟨⟨⟨⟨⟨⟨h1, h2⟩, ?_⟩, ?_⟩, h5⟩, h6⟩, h7⟩, ?_⟩
    · simp only [Bool.not_eq_true', decide_eq_false_iff_not] at h3 ⊢
      exact fun hm => h3 ((hiff n).2 hm)
    · simp only [List.all_eq_true, Bool.and_eq_true, decide_eq_true_eq] at h4 ⊢
      intro i him
      obtain ⟨⟨a, b⟩, c⟩ := h4 i him
      refine ⟨⟨a, b⟩, ?_⟩
      rcases List.mem_cons.1 c with rfl | hc
      · exact List.mem_cons_self _ _
      · exact List.mem_cons_of_mem _ ((hiff i).1 hc)
    · exact ih (n :: names1) (n :: names2) (fun x => by simp [List.mem_cons, hiff x]) h8

/-- Parsing the saved text of a well-formed document tail from a fresh-line
state appends exactly that tail to the accumulated document. -/
theorem save_doc (inc : IncT) (d : Doc) :
    ∀ (tail : List Char) (doc : Doc) (msgs : List Str) (bp sb : Str) (ctx0 : Option Str)
      (cp ln : Nat), SaveableDoc (doc.map Prod.fst) d = true →
      ∃ sb' ctx' cp' ln',
        runChars inc (save d ++ tail) (nlState doc msgs bp sb ctx0 cp ln) =
          runChars inc tail (nlState (doc ++ d) msgs bp sb' ctx' cp' ln') := by
  induction d with
  | nil =>
    intro tail doc msgs bp sb ctx0 cp ln _
    exact ⟨sb, ctx0, cp, ln, by simp [save]⟩
  | cons p rest ih =>
    obtain ⟨n, sec⟩ := p
    intro tail doc msgs bp sb ctx0 cp ln hs
    simp only [SaveableDoc, Bool.and_eq_true] at hs
    obtain ⟨⟨⟨⟨⟨⟨⟨a1, a2⟩, a3⟩, a4⟩, a5⟩, a6⟩, a7⟩, a8⟩ := hs
    have hnew : lookupS doc n = none := by
      refine lookupS_eq_none_of_not_mem doc n ?_
      simp only [Bool.not_eq_true', decide_eq_false_iff_not] at a3
      exact a3
    have hinh : ∀ i ∈ sec.inheritances, i ≠ [] ∧ plainStr i = true ∧
        (i = n ∨ i ∈ doc.map Prod.fst) := by
      simp only [List.all_eq_true, Bool.and_eq_true, decide_eq_true_eq] at a4
      intro i him
      obtain ⟨⟨x, y⟩, z⟩ := a4 i him
      exact ⟨x, y, List.mem_cons.1 z⟩
    have hattr : ∀ a ∈ sec.attributes, a ≠ [] ∧ plainStr a = true := by
      simp only [List.all_eq_true, Bool.and_eq_true, decide_eq_true_eq] at a5
      exact a5
    have hvals : ∀ q ∈ sec.values, q.1 ≠ [] ∧ plainStr q.1 = true ∧
        valueStr q.2 = true := by
      simp only [List.all_eq_true, Bool.and_eq_true, decide_eq_true_eq] at a7
      intro q hq
      obtain ⟨⟨x, y⟩, z⟩ := a7 q hq
      exact ⟨x, y, z⟩
    obtain ⟨cp1, ln1, h1⟩ := section_block inc n sec (save rest ++ tail) doc msgs bp sb
      ctx0 cp ln a2 hnew hinh hattr hvals a6
    have hs2 : SaveableDoc ((doc ++ [(n, sec)]).map Prod.fst) rest = true := by
      refine saveableDoc_names rest (n :: doc.map Prod.fst) _ ?_ a8
      intro x
      simp only [List.mem_cons, List.map_append, List.mem_append, List.mem_singleton,
        List.map_cons, List.map_nil, List.not_mem_nil, or_false]
      exact Or.comm
    obtain ⟨sb2, ctx2, cp2, ln2, h2⟩ := ih tail (doc ++ [(n, sec)]) msgs bp n (some n)
      cp1 ln1 hs2
    refine ⟨sb2, ctx2, cp2, ln2, ?_⟩
    show runChars inc ((saveSection n sec ++ save rest) ++ tail)
      (nlState doc msgs bp sb ctx0 cp ln) = _
    rw [List.append_assoc, h1, h2, List.append_assoc]
    rfl

/-- Claim C7, counterexample: the document whose single section `S` maps `k`
to `"a b"`.  `save` prints `k = a b`, but on re-parse the spaces inside the
value are skipped (the ignore-leading-spaces flag is still set on a value
line), so the re-parsed document maps `k` to `"ab"`: the key-to-value
mapping differs, refuting round-trip equivalence for arbitrary documents. -/
theorem c7_counterexample :
    docEquiv docC7 (parseDoc (save docC7)) = false ∧
    parseDoc (save docC7) = [(str "S", Section.mk [] [] [(str "k", str "ab")])] ∧
    lookupS docC7 (str "S") = some (Section.mk [] [] [(str "k", str "a b")]) := by
  refine ⟨by decide, by decide, by decide⟩


/-- Claim C7, amended: the save/load round trip is exact — not merely
equivalent — for every well-formed document: section names, inheritance
names, attribute names and keys are non-empty strings of characters the read
loop does not treat specially, values additionally may contain commas, no
section name or key is redeclared, and every inheritance names an
already-declared section or the section itself.  Parsing the saved text of
such a document reproduces it verbatim. -/
theorem c7_roundtrip_amended (doc : Doc) (h : Saveable doc = true) :
    parseDoc (save doc) = doc := by
  obtain ⟨sb1, ctx1, cp1, ln1, h1⟩ := save_doc (includeFn noEnv 0) doc ['\n']
    [] [] [] [] none 0 1 h
  show (runChars (includeFn noEnv 0) (save doc ++ ['\n']) (initState [] [] [])).doc = doc
  rw [show initState [] [] [] = nlState [] [] [] [] none 0 1 from rfl, h1]
  rfl

theorem c7_roundtrip_witness :
    Saveable docW7 = true ∧ parseDoc (save docW7) = docW7 :=
  ⟨by decide, c7_roundtrip_amended docW7 (by decide)⟩

end CFGParser
